import Mathlib

/-!
Verification of the reconciliation/storage layer of the rekindle-deepface
service, as a shallow embedding of `app/storage/storage_manager.py`,
`app/services/face_recognition_service.py` and `app/routes/api.py`.

The filesystem tree under the data root is modelled as an ordered
association list of group directories (order = `os.listdir` order), each an
ordered association list of person directories; a person directory holds a
list of image filenames plus the state of its `metadata.json` file.
Python dicts produced by `json.load` / consumed by `json.dump` are
modelled as insertion-ordered association lists of JSON-like values.
-/

namespace Rekindle

/-! ## JSON-like documents (Python dicts round-tripped through `json`) -/

/-- A JSON value as stored in `metadata.json` documents. -/
inductive JVal where
  | jB (b : Bool)
  | jS (s : String)
  | jN (q : Rat)
  | jArr (xs : List JVal)
  | jObj (kvs : List (String × JVal))

/-- A JSON object / Python dict: insertion-ordered key/value pairs. -/
abbrev Doc := List (String × JVal)

/-- Python `d[k] = v`: replace in place if the key exists, else append
(Python dicts preserve insertion order). -/
def setKey : Doc → String → JVal → Doc
  | [], k, v => [(k, v)]
  | (k', v') :: rest, k, v =>
    if k' = k then (k, v) :: rest else (k', v') :: setKey rest k v

/-- Python `k in d`. -/
def hasKey (d : Doc) (k : String) : Bool := (d.lookup k).isSome

/-- Python truthiness of a JSON value (used by `bool`-context reads). -/
def jTruthy : JVal → Bool
  | .jB b => b
  | .jS s => s ≠ ""
  | .jN q => q ≠ 0
  | .jArr xs => !xs.isEmpty
  | .jObj kvs => !kvs.isEmpty

/-! ## The filesystem store -/

/-- The state of a person's `metadata.json` file: missing, unparseable, or
holding a parsed document. -/
inductive MetaFile where
  | absent
  | corrupt
  | stored (d : Doc)

/-- A person directory: its face-image files (in `os.listdir` order) and
its `metadata.json`. -/
structure PersonDir where
  images : List String
  meta : MetaFile

/-- A group directory: person directories in `os.listdir` order. -/
abbrev GroupDir := List (String × PersonDir)

/-- The data root: group directories in `os.listdir` order. -/
structure Store where
  groups : List (String × GroupDir)

/-- ASCII lower-casing of one character (Python `str.lower` on the ASCII
filenames this store produces). -/
def lowerChar (c : Char) : Char :=
  if 'A' ≤ c ∧ c ≤ 'Z' then Char.ofNat (c.toNat + 32) else c

/-- `filename.lower().endswith((".jpg", ".jpeg", ".png"))`. -/
def isImgName (f : String) : Bool :=
  let l := f.data.map lowerChar
  ".jpg".data.isSuffixOf l || ".jpeg".data.isSuffixOf l || ".png".data.isSuffixOf l

/-- `os.listdir` of a person directory: the image files plus
`metadata.json` when that file exists on disk. -/
def personFiles (pd : PersonDir) : List String :=
  pd.images ++ (match pd.meta with | .absent => [] | _ => ["metadata.json"])

/-- Look up a group directory by name. -/
def getGroup (st : Store) (g : String) : Option GroupDir := st.groups.lookup g

/-- Look up a person directory inside a group. -/
def getPerson (st : Store) (g p : String) : Option PersonDir :=
  (getGroup st g).bind fun grp => grp.lookup p

/-- `os.path.exists(person_dir)`. -/
def personExists (st : Store) (g p : String) : Bool := (getPerson st g p).isSome

/-- `os.makedirs(group_dir, exist_ok=True)`. -/
def ensureGroup (st : Store) (g : String) : Store :=
  match st.groups.lookup g with
  | some _ => st
  | none => ⟨st.groups ++ [(g, [])]⟩

/-- `StorageManager.create_person_directory`: `os.makedirs` of the person
directory (creates the group directory on the way when missing). -/
def create_person_directory (st : Store) (g p : String) : Store :=
  let st := ensureGroup st g
  match getPerson st g p with
  | some _ => st
  | none =>
    ⟨st.groups.map fun e =>
      if e.1 = g then (e.1, e.2 ++ [(p, ⟨[], .absent⟩)]) else e⟩

/-- Update the person directory `p` of group `g` through `f` (no-op when
the person directory is missing). -/
def updatePerson (st : Store) (g p : String) (f : PersonDir → PersonDir) : Store :=
  ⟨st.groups.map fun e =>
    if e.1 = g then (e.1, e.2.map fun q => if q.1 = p then (q.1, f q.2) else q) else e⟩

/-! ## StorageManager: metadata operations -/

/-- `StorageManager.get_user_metadata`: parse `metadata.json`, returning
`{}` when the file is missing or unparseable. -/
def get_user_metadata (st : Store) (g p : String) : Doc :=
  match getPerson st g p with
  | some pd =>
    match pd.meta with
    | .stored d => d
    | _ => []
  | none => []

/-- `StorageManager.save_user_metadata`: create the person directory,
stamp `last_updated`, default `is_temp_user` to `False` only when the key
is absent, and write the document. -/
def save_user_metadata (st : Store) (g p : String) (metadata : Doc) (now : String) : Store :=
  let st := create_person_directory st g p
  let metadata := setKey metadata "last_updated" (.jS now)
  let metadata :=
    if hasKey metadata "is_temp_user" then metadata
    else setKey metadata "is_temp_user" (.jB false)
  updatePerson st g p fun pd => { pd with meta := .stored metadata }

/-- `StorageManager.is_temp_user`: scan the data root's group directories
in `os.listdir` order; the first group containing a directory named
`person_id` decides, via that group's metadata (default `False`). -/
def is_temp_user (st : Store) (p : String) : Bool :=
  match st.groups.find? (fun e => (e.2.lookup p).isSome) with
  | some e =>
    match (get_user_metadata st e.1 p).lookup "is_temp_user" with
    | some v => jTruthy v
    | none => false
  | none => false

/-- `StorageManager.group_exists`: the group directory exists and
`os.listdir` of it is non-empty. -/
def group_exists (st : Store) (g : String) : Bool :=
  match getGroup st g with
  | some grp => !grp.isEmpty
  | none => false

/-! ## StorageManager: listing users -/

/-- One entry of the `list_users_in_group` result. -/
structure UserInfo where
  person_id : String
  face_count : Nat
  created_at : Option JVal
  last_updated : Option JVal
  metadata : Doc

/-- The two partition lists returned by `list_users_in_group`. -/
structure UsersLists where
  permanent : List UserInfo
  temporary : List UserInfo

/-- Loop body of `list_users_in_group`: build the `user_info` dict for one
person directory and append it to the partition picked by `is_temp_user`. -/
def listUserStep (st : Store) (g : String) (acc : UsersLists) (e : String × PersonDir) :
    UsersLists :=
  let md := get_user_metadata st g e.1
  let ui : UserInfo :=
    ⟨e.1, ((personFiles e.2).filter isImgName).length,
      md.lookup "created_at", md.lookup "last_updated", md⟩
  if is_temp_user st e.1 then { acc with temporary := acc.temporary ++ [ui] }
  else { acc with permanent := acc.permanent ++ [ui] }

/-- `StorageManager.list_users_in_group`: every person directory of the
group is appended to exactly one of the two lists, the choice made by
`is_temp_user` (which scans all groups). -/
def list_users_in_group (st : Store) (g : String) : UsersLists :=
  match getGroup st g with
  | none => ⟨[], []⟩
  | some grp => grp.foldl (listUserStep st g) ⟨[], []⟩

/-- `FaceRecognitionService.list_users_in_group` summary: total user count
reported to the API caller. -/
def list_users_total (st : Store) (g : String) : Nat :=
  (list_users_in_group st g).permanent.length + (list_users_in_group st g).temporary.length

/-! ## Path construction (`os.path.join`, `get_group_dir`, `get_person_dir`) -/

/-- `os.path.join(a, b)` on POSIX: an absolute second component replaces
the first; otherwise the components are joined with a single separator. -/
def pyJoin (a b : String) : String :=
  if b.data.head? = some '/' then b
  else if a = "" ∨ a.data.getLast? = some '/' then a ++ b
  else a ++ "/" ++ b

/-- The constructor arguments of `StorageManager` (`data_dir`, `models_dir`). -/
structure SMConfig where
  data_dir : String
  models_dir : String

/-- `StorageManager.get_group_dir`: joins the caller-supplied `group_id`
directly under the data root — no validation of the identifier. -/
def get_group_dir (sm : SMConfig) (group_id : String) : String :=
  pyJoin sm.data_dir group_id

/-- `StorageManager.get_person_dir`: joins the caller-supplied `person_id`
under the group directory — no validation of the identifier. -/
def get_person_dir (sm : SMConfig) (group_id person_id : String) : String :=
  pyJoin (get_group_dir sm group_id) person_id

/-! ## Collision-free target filenames (`merge_users` inner while-loop) -/

/-- Decimal digit to character. -/
def digitChar (d : Nat) : Char :=
  match d with
  | 0 => '0' | 1 => '1' | 2 => '2' | 3 => '3' | 4 => '4'
  | 5 => '5' | 6 => '6' | 7 => '7' | 8 => '8' | 9 => '9'
  | _ => '?'

/-- Python `str(n)` for a natural number: decimal rendering. -/
def natRepr (n : Nat) : String :=
  if n = 0 then "0" else ⟨((Nat.digits 10 n).map digitChar).reverse⟩

/-- Decimal value of a digit character (decoding helper for proofs). -/
def digitVal (c : Char) : Nat := c.toNat - 48

/-- Decode a decimal rendering back to the natural number (left inverse
of `natRepr`, used to prove injectivity of generated filenames). -/
def decodeRepr (s : String) : Nat :=
  Nat.ofDigits 10 (s.data.reverse.map digitVal)

/-- `os.path.splitext`: split a filename at its last dot (the extension
keeps the dot). -/
def splitExt (f : String) : String × String :=
  let r := f.data.reverse
  let suf := r.takeWhile (fun c => c ≠ '.')
  if suf.length = r.length then (f, "")
  else (⟨(r.drop (suf.length + 1)).reverse⟩, ⟨'.' :: suf.reverse⟩)

/-- The candidate filename tried at counter value `c`:
`f"{base_name}_{counter}{ext}"`. -/
def candName (base ext : String) (c : Nat) : String :=
  base ++ "_" ++ natRepr c ++ ext

/-- The `while os.path.exists(...)` loop of `merge_users`, with explicit
fuel: keep incrementing the counter while the candidate collides. -/
def uniqueNameAux (existing : List String) (base ext : String) : Nat → Nat → String
  | 0, c => candName base ext c
  | fuel + 1, c =>
    let cand := candName base ext c
    if cand ∈ existing then uniqueNameAux existing base ext fuel (c + 1) else cand

/-- Target filename for a moved sample: the original name when free,
otherwise the first `f"{base}_{counter}{ext}"` (counter starting at 1)
that does not collide with an existing file. -/
def uniqueName (existing : List String) (filename : String) : String :=
  if filename ∈ existing then
    let be := splitExt filename
    uniqueNameAux existing be.1 be.2 (existing.length + 1) 1
  else filename

/-! ## `StorageManager.merge_users` -/

/-- Per-source summary appended to `merged_info["merged_sources"]`. -/
structure SourceInfo where
  person_id : String
  faces_moved : Nat
  was_temp_user : Bool
  source_metadata : Doc

/-- The `merged_info` dictionary built by `merge_users`. -/
structure MergedInfo where
  target_person_id : String
  merged_sources : List SourceInfo
  total_faces_moved : Nat
  errors : List String
  target_existed : Bool

/-- The `(success, message, merged_info)` return of `merge_users`, plus
the store it leaves behind (`merged_info` is `{}`, i.e. `none`, on the
exception path). -/
structure MergeResult where
  success : Bool
  message : String
  info : Option MergedInfo
  store : Store

/-- Move one source file into the target person directory: pick a
collision-free name, then `shutil.move` (an existing target path would be
overwritten, leaving the name list unchanged). -/
def moveOneFile (st : Store) (g target fn : String) : Store × String :=
  let tfiles := match getPerson st g target with
    | some pd => personFiles pd
    | none => []
  let newName := uniqueName tfiles fn
  (updatePerson st g target fun pd =>
    { pd with images := if newName ∈ pd.images then pd.images else pd.images ++ [newName] },
   newName)

/-- Move every file of `files` (a snapshot of the source's image files)
into the target person directory, in order. -/
def moveAll (g target : String) (files : List String) (st : Store) : Store :=
  files.foldl (fun s fn => (moveOneFile s g target fn).1) st

/-- `shutil.rmtree` of a person directory. -/
def removePerson (st : Store) (g p : String) : Store :=
  ⟨st.groups.map fun e => if e.1 = g then (e.1, e.2.filter fun q => q.1 ≠ p) else e⟩

/-- The per-source body of the `merge_users` loop (source exists and
differs from the target): move every image file, record the source info,
then `shutil.rmtree` the source directory. -/
def mergeOneSource (g target : String) (st : Store) (info : MergedInfo) (src : String) :
    Store × MergedInfo :=
  match getPerson st g src with
  | none =>
    (st, { info with errors := info.errors ++ ["Source user " ++ src ++ " not found"] })
  | some spd =>
    if src = target then
      (st, { info with errors := info.errors ++ ["Cannot merge user into itself: " ++ src] })
    else
      let files := (personFiles spd).filter isImgName
      let stMoved := moveAll g target files st
      let faces_moved := files.length
      let source_metadata := get_user_metadata stMoved g src
      let was_temp := is_temp_user stMoved src
      let info :=
        { info with
          merged_sources := info.merged_sources ++
            [⟨src, faces_moved, was_temp, source_metadata⟩],
          total_faces_moved := info.total_faces_moved + faces_moved }
      (removePerson stMoved g src, info)

/-- `StorageManager.merge_users`: per-source move-and-remove loop, then the
target-metadata update (initialize the target as permanent only when it
did not exist beforehand, append one `merge_history` event, save).  A
non-list `merge_history` value raises (`.append` on a non-list), which the
outer `except` turns into a failed return with the partial mutations kept. -/
def merge_users (st : Store) (g : String) (source_person_ids : List String)
    (target_person_id : String) (now : String) : MergeResult :=
  let target_existed := personExists st g target_person_id
  let st := if target_existed then st else create_person_directory st g target_person_id
  let info0 : MergedInfo := ⟨target_person_id, [], 0, [], target_existed⟩
  let step := source_person_ids.foldl
    (fun acc src => mergeOneSource g target_person_id acc.1 acc.2 src) (st, info0)
  let st := step.1
  let info := step.2
  let tmeta := get_user_metadata st g target_person_id
  let tmeta :=
    if !info.target_existed then
      setKey (setKey (setKey (setKey tmeta
        "created_at" (.jS now))
        "person_id" (.jS target_person_id))
        "is_temp_user" (.jB false))
        "created_from_merge" (.jB true)
    else tmeta
  match (tmeta.lookup "merge_history").getD (.jArr []) with
  | .jArr xs =>
    let entry : JVal := .jObj
      [("merged_at", .jS now),
       ("merged_sources", .jArr (info.merged_sources.map fun si => .jS si.person_id)),
       ("total_faces_added", .jN info.total_faces_moved)]
    let tmeta := setKey tmeta "merge_history" (.jArr (xs ++ [entry]))
    let st := save_user_metadata st g target_person_id tmeta now
    let n := natRepr info.merged_sources.length
    ⟨true, "Successfully merged " ++ n ++ " users into " ++ target_person_id, some info, st⟩
  | _ =>
    ⟨false, "Error during merge: merge_history is not a list", none, st⟩

/-! ## FaceRecognitionService: face ingestion pipelines

The detector and recognizer are external collaborators; a detected face is
modelled together with the oracle data the pipeline would obtain for it:
its extraction outcome, the recognizer's reply, and the fresh identifiers
(`uuid4`) the storage layer would mint. -/

/-- One entry of the recognizer's result list (`_process_matches` always
populates these keys). -/
structure FaceInfo where
  person_id : String
  is_new_person : Bool
  confidence : Rat

/-- A detected face together with the external outcomes for it. -/
structure FaceObj where
  /-- `face_obj.get("facial_area", {})` is non-empty. -/
  hasArea : Bool
  /-- Outcome of `extract_face` + `save_temp_face` (exception message on failure). -/
  extract : Except String Unit
  /-- `recognize_face` reply: `(success, face_results)`. -/
  recog : Bool × List FaceInfo
  /-- `create_temp_user_id()` value minted for this face if needed. -/
  tempId : String
  /-- `create_permanent_user_id()` value minted for this face if needed. -/
  permId : String
  /-- `f"{uuid.uuid4()}.jpg"` filename minted by `save_face_image`. -/
  imgName : String

/-- Store side effects of a pipeline run, in program order. -/
inductive Ev where
  | sample (g p : String)
  | metaUp (g p : String)
deriving DecidableEq

/-- A per-face entry of the `results` list of `add_faces_to_group`. -/
inductive Entry where
  | err (idx : Nat) (msg : String)
  | ok (idx : Nat) (person : String) (isTemp : Bool) (isNew : Bool)
      (recType : String) (confidence : Rat)

/-- The `face_index` field of a result entry. -/
def Entry.idx : Entry → Nat
  | .err i _ => i
  | .ok i _ _ _ _ _ => i

/-- Whether a result entry is a per-face error entry. -/
def Entry.isErr : Entry → Bool
  | .err _ _ => true
  | .ok _ _ _ _ _ _ => false

/-- The `person_id` of a successful entry (dummy for error entries). -/
def Entry.person : Entry → String
  | .err _ _ => ""
  | .ok _ p _ _ _ _ => p

/-- `StorageManager.save_face_image`: create the person directory and
write one image file under it (`cv2.imwrite` would overwrite an existing
name, leaving the name list unchanged). -/
def save_face_image (st : Store) (g p fname : String) : Store :=
  let st := create_person_directory st g p
  updatePerson st g p fun pd =>
    { pd with images := if fname ∈ pd.images then pd.images else pd.images ++ [fname] }

/-- First loop of `add_faces_to_group`: per face, skip when the facial
area is empty, record a per-face error entry when extraction raises, else
keep `(index, face)` for the recognition phase. -/
def phase1 : Nat → List FaceObj → List Entry × List (Nat × FaceObj)
  | _, [] => ([], [])
  | i, f :: rest =>
    let out := phase1 (i + 1) rest
    if f.hasArea then
      match f.extract with
      | .ok _ => (out.1, (i, f) :: out.2)
      | .error msg => (.err i msg :: out.1, out.2)
    else out

/-- The recognition-phase decision of `add_faces_to_group` for one face:
`(person_id, is_new_person, confidence, recognition_type)`. -/
def decideFace (st : Store) (thr : Rat) (f : FaceObj) : String × Bool × Rat × String :=
  match f.recog with
  | (true, fi :: _) =>
    if !fi.is_new_person && decide (fi.confidence ≥ thr) then
      let rt := if is_temp_user st fi.person_id then "temp_user" else "recognized"
      (fi.person_id, false, fi.confidence, rt)
    else
      (f.tempId, true, fi.confidence, "temp_user")
  | _ => (f.tempId, true, 0, "temp_user")

/-- Recognition-phase loop of `add_faces_to_group` (trained corpus
exists): per face, decide the person, save the face image, save the
user metadata, and append a result entry. -/
def phase2A (g : String) (thr : Rat) (srcImg now : String) :
    Store → List (Nat × FaceObj) → List Entry × List Ev × Store
  | st, [] => ([], [], st)
  | st, (i, f) :: rest =>
    let dcd := decideFace st thr f
    let person := dcd.1
    let isNew := dcd.2.1
    let conf := dcd.2.2.1
    let recType := dcd.2.2.2
    let st1 := save_face_image st g person f.imgName
    let md : Doc :=
      [("created_at", .jS now), ("recognition_type", .jS recType),
       ("confidence", .jN conf), ("source_image", .jS srcImg),
       ("is_temp_user", .jB (recType == "temp_user"))]
    let st2 := save_user_metadata st1 g person md now
    let e : Entry := .ok i person (is_temp_user st2 person) isNew recType conf
    let out := phase2A g thr srcImg now st2 rest
    (e :: out.1, .sample g person :: .metaUp g person :: out.2.1, out.2.2)

/-- Fallback loop of `add_faces_to_group` (no trained corpus): every face
becomes a fresh temporary user with `is_temp_user = True` metadata. -/
def phase2B (g : String) (srcImg now : String) :
    Store → List (Nat × FaceObj) → List Entry × List Ev × Store
  | st, [] => ([], [], st)
  | st, (i, f) :: rest =>
    let person := f.tempId
    let st1 := save_face_image st g person f.imgName
    let md : Doc :=
      [("created_at", .jS now), ("recognition_type", .jS "temp_user"),
       ("confidence", .jN 0), ("source_image", .jS srcImg),
       ("is_temp_user", .jB true)]
    let st2 := save_user_metadata st1 g person md now
    let e : Entry := .ok i person true true "temp_user" 0
    let out := phase2B g srcImg now st2 rest
    (e :: out.1, .sample g person :: .metaUp g person :: out.2.1, out.2.2)

/-- The `(success, results, events, store)` outcome of an ingestion run. -/
structure RunResult where
  success : Bool
  results : List Entry
  events : List Ev
  store : Store

/-- `FaceRecognitionService.add_faces_to_group`, from the point where the
detector has produced `faces`: ensure the group directory, fail when no
face was detected, run the extraction loop, then the recognition loop
(or the no-corpus fallback). -/
def add_faces_to_group (st : Store) (g : String) (faces : List FaceObj)
    (thr : Rat) (srcImg now : String) : RunResult :=
  let st := ensureGroup st g
  if faces.isEmpty then ⟨false, [], [], st⟩
  else
    let p1 := phase1 0 faces
    let errs := p1.1
    let extracted := p1.2
    let hasModel := group_exists st g
    let out :=
      if hasModel && !extracted.isEmpty then phase2A g thr srcImg now st extracted
      else phase2B g srcImg now st extracted
    ⟨true, errs ++ out.1, out.2.1, out.2.2⟩

/-! ### `extract_and_handle_faces` (the "train" workflow) -/

/-- A per-face entry of the `results` list of `extract_and_handle_faces`. -/
inductive TEntry where
  | err (idx : Nat) (msg : String)
  | ok (idx : Nat) (person : String) (isNew : Bool)

/-- Whether a train-workflow entry is an error entry. -/
def TEntry.isErr : TEntry → Bool
  | .err _ _ => true
  | .ok _ _ _ => false

/-- The `person_id` of a successful train-workflow entry. -/
def TEntry.person : TEntry → String
  | .err _ _ => ""
  | .ok _ p _ => p

/-- First loop of `extract_and_handle_faces`: like `phase1`, but
`face_paths` keeps no original index (faces are re-enumerated later). -/
def phase1T : Nat → List FaceObj → List TEntry × List FaceObj
  | _, [] => ([], [])
  | i, f :: rest =>
    let out := phase1T (i + 1) rest
    if f.hasArea then
      match f.extract with
      | .ok _ => (out.1, f :: out.2)
      | .error msg => (.err i msg :: out.1, out.2)
    else out

/-- Recognition-phase loop of `extract_and_handle_faces` (trained corpus
exists): faces whose recognition call fails are silently dropped; the rest
are saved under the matched or a fresh permanent person. No user metadata
is ever written in this workflow. -/
def phase2AT (g : String) (thr : Rat) :
    Store → Nat → List FaceObj → List TEntry × List Ev × Store
  | st, _, [] => ([], [], st)
  | st, i, f :: rest =>
    match f.recog with
    | (true, fi :: _) =>
      let pr :=
        if !fi.is_new_person && decide (fi.confidence ≥ thr) then (fi.person_id, false)
        else (f.permId, true)
      let st1 := save_face_image st g pr.1 f.imgName
      let e : TEntry := .ok i pr.1 pr.2
      let out := phase2AT g thr st1 (i + 1) rest
      (e :: out.1, .sample g pr.1 :: out.2.1, out.2.2)
    | _ =>
      phase2AT g thr st (i + 1) rest

/-- Fallback loop of `extract_and_handle_faces` (no trained corpus):
every face becomes a fresh permanent user; no metadata is written. -/
def phase2BT (g : String) :
    Store → Nat → List FaceObj → List TEntry × List Ev × Store
  | st, _, [] => ([], [], st)
  | st, i, f :: rest =>
    let st1 := save_face_image st g f.permId f.imgName
    let e : TEntry := .ok i f.permId true
    let out := phase2BT g st1 (i + 1) rest
    (e :: out.1, .sample g f.permId :: out.2.1, out.2.2)

/-- The `(success, results, events, store)` outcome of a train-workflow run. -/
structure TRunResult where
  success : Bool
  results : List TEntry
  events : List Ev
  store : Store

/-- `FaceRecognitionService.extract_and_handle_faces`, from the point
where the detector has produced `faces`. -/
def extract_and_handle_faces (st : Store) (g : String) (faces : List FaceObj)
    (thr : Rat) : TRunResult :=
  let st := ensureGroup st g
  if faces.isEmpty then ⟨false, [], [], st⟩
  else
    let p1 := phase1T 0 faces
    let errs := p1.1
    let extracted := p1.2
    let hasModel := group_exists st g
    let out :=
      if hasModel && !extracted.isEmpty then phase2AT g thr st 0 extracted
      else phase2BT g st 0 extracted
    ⟨true, errs ++ out.1, out.2.1, out.2.2⟩

/-- Whether an event is a metadata upsert. -/
def Ev.isMeta : Ev → Bool
  | .metaUp _ _ => true
  | .sample _ _ => false

/-- Whether a detected face (with a non-empty facial area) fails during
the extraction loop. -/
def faceFailed (f : FaceObj) : Bool :=
  f.hasArea && (match f.extract with | .error _ => true | .ok _ => false)

/-! ## Basic lemmas on documents and the store -/

theorem lookup_cons {beta : Type} (k a : String) (b : beta) (l : List (String × beta)) :
    List.lookup k ((a, b) :: l) = if k = a then some b else List.lookup k l := by
  by_cases h : k = a
  · simp [List.lookup, h]
  · have hb : (k == a) = false := beq_eq_false_iff_ne.mpr h
    simp [List.lookup, h, hb]

theorem lookup_setKey_self (d : Doc) (k : String) (v : JVal) :
    (setKey d k v).lookup k = some v := by
  induction d with
  | nil => simp [setKey, lookup_cons]
  | cons e rest ih =>
    obtain ⟨a, b⟩ := e
    by_cases h : a = k
    · simp [setKey, h, lookup_cons]
    · simp [setKey, h, lookup_cons, Ne.symm h, ih]

theorem lookup_setKey_ne (d : Doc) (k k' : String) (v : JVal) (h : k' ≠ k) :
    (setKey d k v).lookup k' = d.lookup k' := by
  induction d with
  | nil => simp [setKey, lookup_cons, h]
  | cons e rest ih =>
    obtain ⟨a, b⟩ := e
    by_cases ha : a = k
    · subst ha
      simp [setKey, lookup_cons, h]
    · simp [setKey, ha, lookup_cons, ih]

theorem lookup_of_map_modify {beta : Type} (l : List (String × beta)) (g : String)
    (h : beta → beta) :
    (l.map fun e => if e.1 = g then (e.1, h e.2) else e).lookup g = (l.lookup g).map h := by
  induction l with
  | nil => simp
  | cons e rest ih =>
    obtain ⟨a, b⟩ := e
    by_cases ha : a = g
    · subst ha
      simp [lookup_cons]
    · simp [ha, lookup_cons, Ne.symm ha, ih]

theorem lookup_of_map_modify_ne {beta : Type} (l : List (String × beta)) (g g' : String)
    (h : beta → beta) (hne : g' ≠ g) :
    (l.map fun e => if e.1 = g then (e.1, h e.2) else e).lookup g' = l.lookup g' := by
  induction l with
  | nil => simp
  | cons e rest ih =>
    obtain ⟨a, b⟩ := e
    by_cases ha : a = g
    · subst ha
      simp [lookup_cons, hne, ih]
    · by_cases ha' : g' = a
      · subst ha'
        simp [ha, lookup_cons]
      · simp [ha, lookup_cons, ha', ih]

theorem lookup_append_not_found {beta : Type} (l : List (String × beta)) (g : String)
    (v : beta) (h : l.lookup g = none) :
    (l ++ [(g, v)]).lookup g = some v := by
  induction l with
  | nil => simp [lookup_cons]
  | cons e rest ih =>
    obtain ⟨a, b⟩ := e
    rw [lookup_cons] at h
    by_cases ha : g = a
    · rw [if_pos ha] at h
      exact absurd h (by simp)
    · rw [if_neg ha] at h
      rw [List.cons_append, lookup_cons, if_neg ha]
      exact ih h

theorem lookup_append_single_ne {beta : Type} (l : List (String × beta)) (g g' : String)
    (v : beta) (h : g' ≠ g) :
    (l ++ [(g, v)]).lookup g' = l.lookup g' := by
  induction l with
  | nil => simp [lookup_cons, h]
  | cons e rest ih =>
    obtain ⟨a, b⟩ := e
    by_cases ha : g' = a
    · subst ha
      simp [lookup_cons]
    · simp [lookup_cons, ha, ih]

theorem getGroup_ensureGroup_self (st : Store) (g : String) :
    getGroup (ensureGroup st g) g = some ((getGroup st g).getD []) := by
  unfold ensureGroup getGroup
  cases hg : st.groups.lookup g with
  | some grp => simp [hg]
  | none => simp [hg, lookup_append_not_found _ _ _ hg]

theorem getGroup_ensureGroup_ne (st : Store) (g g' : String) (h : g' ≠ g) :
    getGroup (ensureGroup st g) g' = getGroup st g' := by
  unfold ensureGroup getGroup
  cases hg : st.groups.lookup g with
  | some grp => simp [hg]
  | none => simp [hg, lookup_append_single_ne _ _ _ _ h]

theorem getPerson_updatePerson_self (st : Store) (g p : String) (f : PersonDir → PersonDir) :
    getPerson (updatePerson st g p f) g p = (getPerson st g p).map f := by
  unfold updatePerson getPerson getGroup
  rw [show (fun e : String × GroupDir => if e.1 = g
        then (e.1, e.2.map fun q => if q.1 = p then (q.1, f q.2) else q) else e)
      = (fun e : String × GroupDir => if e.1 = g
        then (e.1, (fun grp : GroupDir => grp.map fun q => if q.1 = p then (q.1, f q.2) else q) e.2)
        else e) from rfl]
  rw [lookup_of_map_modify]
  cases st.groups.lookup g with
  | none => rfl
  | some grp => simp [lookup_of_map_modify grp p f]

theorem getPerson_updatePerson_ne_group (st : Store) (g g' p p' : String)
    (f : PersonDir → PersonDir) (h : g' ≠ g) :
    getPerson (updatePerson st g p f) g' p' = getPerson st g' p' := by
  unfold updatePerson getPerson getGroup
  rw [show (fun e : String × GroupDir => if e.1 = g
        then (e.1, e.2.map fun q => if q.1 = p then (q.1, f q.2) else q) else e)
      = (fun e : String × GroupDir => if e.1 = g
        then (e.1, (fun grp : GroupDir => grp.map fun q => if q.1 = p then (q.1, f q.2) else q) e.2)
        else e) from rfl]
  rw [lookup_of_map_modify_ne _ _ _ _ h]

theorem getPerson_updatePerson_ne_person (st : Store) (g p p' : String)
    (f : PersonDir → PersonDir) (h : p' ≠ p) :
    getPerson (updatePerson st g p f) g p' = getPerson st g p' := by
  unfold updatePerson getPerson getGroup
  rw [show (fun e : String × GroupDir => if e.1 = g
        then (e.1, e.2.map fun q => if q.1 = p then (q.1, f q.2) else q) else e)
      = (fun e : String × GroupDir => if e.1 = g
        then (e.1, (fun grp : GroupDir => grp.map fun q => if q.1 = p then (q.1, f q.2) else q) e.2)
        else e) from rfl]
  rw [lookup_of_map_modify]
  cases st.groups.lookup g with
  | none => rfl
  | some grp => simp [lookup_of_map_modify_ne grp p p' _ h]

theorem getPerson_create_self (st : Store) (g p : String) :
    getPerson (create_person_directory st g p) g p =
      some ((getPerson st g p).getD ⟨[], .absent⟩) := by
  unfold create_person_directory
  have hgrp := getGroup_ensureGroup_self st g
  cases hp : getPerson (ensureGroup st g) g p with
  | some pd =>
    simp only [hp]
    have : getPerson st g p = some pd := by
      unfold getPerson at hp ⊢
      unfold ensureGroup at hp
      cases hg : st.groups.lookup g with
      | some grp =>
        unfold getGroup at hp ⊢
        simp [hg] at hp ⊢
        exact hp
      | none =>
        unfold getGroup at hp
        simp [hg, lookup_append_not_found _ _ _ hg] at hp
    simp [this]
  | none =>
    simp only [hp]
    have hstg : getPerson st g p = none := by
      unfold getPerson at hp ⊢
      unfold ensureGroup at hp
      cases hg : st.groups.lookup g with
      | some grp =>
        unfold getGroup at hp ⊢
        simp [hg] at hp ⊢
        exact hp
      | none => simp [getGroup, hg]
    show (List.lookup g ((ensureGroup st g).groups.map fun e =>
        if e.1 = g then (e.1, e.2 ++ [(p, ⟨[], .absent⟩)]) else e)).bind
        (fun grp => List.lookup p grp) = _
    have hmap := lookup_of_map_modify (ensureGroup st g).groups g
      (fun grp => grp ++ [(p, (⟨[], .absent⟩ : PersonDir))])
    rw [hmap]
    rw [show (ensureGroup st g).groups.lookup g = getGroup (ensureGroup st g) g from rfl, hgrp]
    have hpl : ((getGroup st g).getD []).lookup p = none := by
      cases hg : getGroup st g with
      | some grp =>
        unfold getPerson at hstg
        simp [hg] at hstg
        simpa using hstg
      | none => simp
    simp [hstg, lookup_append_not_found _ _ _ hpl]


/-! ## Metadata round-trip (claim C5) -/

theorem get_user_metadata_save (st : Store) (g p : String) (d : Doc) (now : String) :
    get_user_metadata (save_user_metadata st g p d now) g p =
      (let d1 := setKey d "last_updated" (.jS now)
       if hasKey d1 "is_temp_user" then d1 else setKey d1 "is_temp_user" (.jB false)) := by
  unfold save_user_metadata get_user_metadata
  rw [getPerson_updatePerson_self, getPerson_create_self]
  simp

/-- C5: `save_user_metadata` followed by `get_user_metadata` returns a
document with the same `is_temp_user` value that was written (for both
`true` and `false`, and for any prior store state, hence across repeated
writes); the write stamps `last_updated`, and the Permanent default
(`is_temp_user = false`) is substituted only when the field is absent from
the written document. -/
theorem c5_metadata_roundtrip (st : Store) (g p : String) (d : Doc) (now : String) :
    (∀ b : Bool, d.lookup "is_temp_user" = some (.jB b) →
      (get_user_metadata (save_user_metadata st g p d now) g p).lookup "is_temp_user"
        = some (.jB b))
    ∧ (d.lookup "is_temp_user" = none →
      (get_user_metadata (save_user_metadata st g p d now) g p).lookup "is_temp_user"
        = some (.jB false))
    ∧ (get_user_metadata (save_user_metadata st g p d now) g p).lookup "last_updated"
        = some (.jS now) := by
  rw [get_user_metadata_save]
  have hne : ("is_temp_user" : String) ≠ "last_updated" := by decide
  have hlu : (setKey d "last_updated" (.jS now)).lookup "is_temp_user" =
      d.lookup "is_temp_user" := lookup_setKey_ne d "last_updated" "is_temp_user" _ hne
  refine ⟨?_, ?_, ?_⟩
  · intro b hb
    have hk : hasKey (setKey d "last_updated" (.jS now)) "is_temp_user" = true := by
      simp [hasKey, hlu, hb]
    simp only [hk, if_true, hlu, hb]
  · intro hb
    have hk : hasKey (setKey d "last_updated" (.jS now)) "is_temp_user" = false := by
      simp [hasKey, hlu, hb]
    simp only [hk, Bool.false_eq_true, if_false]
    exact lookup_setKey_self _ _ _
  · by_cases hk : hasKey (setKey d "last_updated" (.jS now)) "is_temp_user"
    · simp only [hk, if_true]
      exact lookup_setKey_self _ _ _
    · simp only [hk, Bool.false_eq_true, if_false]
      rw [lookup_setKey_ne _ _ _ _ (Ne.symm hne)]
      exact lookup_setKey_self _ _ _

/-- Witness for C5 at concrete inputs, including a repeated write: a
`true` flag written on top of a previous `false` write survives the
round-trip, an absent flag is defaulted to `false`, and `last_updated` is
stamped. -/
theorem c5_metadata_roundtrip_witness :
    ((get_user_metadata (save_user_metadata
        (save_user_metadata ⟨[]⟩ "g" "p" [("is_temp_user", .jB false)] "t0")
        "g" "p" [("is_temp_user", .jB true)] "t1") "g" "p").lookup "is_temp_user"
      = some (.jB true))
    ∧ ((get_user_metadata (save_user_metadata ⟨[]⟩ "g" "p" [("confidence", .jN 1)] "t0")
        "g" "p").lookup "is_temp_user" = some (.jB false))
    ∧ ((get_user_metadata (save_user_metadata ⟨[]⟩ "g" "p" [] "t0") "g" "p").lookup
        "last_updated" = some (.jS "t0")) :=
  ⟨(c5_metadata_roundtrip _ "g" "p" _ "t1").1 true rfl,
   (c5_metadata_roundtrip ⟨[]⟩ "g" "p" _ "t0").2.1 rfl,
   (c5_metadata_roundtrip ⟨[]⟩ "g" "p" [] "t0").2.2⟩

/-! ## Identifier validation before path construction (claim C3) -/

/-- C3: the store performs no validation of caller-supplied identifiers:
a `person_id` containing both path separators and parent-reference
sequences is joined directly into a filesystem path under the data root
instead of being rejected. -/
theorem c3_traversal_not_rejected :
    get_person_dir ⟨"data", "models"⟩ "g" "../../etc/passwd"
      = "data/g/../../etc/passwd" := by
  decide

/-! ## Partitioning users and `group_exists` (claims C4, C9, C10) -/

theorem foldl_listUserStep_counts (st : Store) (g : String) (grp : GroupDir)
    (acc : UsersLists) :
    (grp.foldl (listUserStep st g) acc).permanent.length
        + (grp.foldl (listUserStep st g) acc).temporary.length
      = acc.permanent.length + acc.temporary.length + grp.length := by
  induction grp generalizing acc with
  | nil => simp
  | cons e rest ih =>
    rw [List.foldl_cons, ih]
    unfold listUserStep
    by_cases h : is_temp_user st e.1 <;> simp [h] <;> omega

theorem foldl_listUserStep_perm_ids (st : Store) (g : String) (grp : GroupDir)
    (acc : UsersLists) :
    (grp.foldl (listUserStep st g) acc).permanent.map (·.person_id)
      = acc.permanent.map (·.person_id)
        ++ (grp.filter fun e => !is_temp_user st e.1).map (·.1) := by
  induction grp generalizing acc with
  | nil => simp
  | cons e rest ih =>
    rw [List.foldl_cons, ih]
    unfold listUserStep
    by_cases h : is_temp_user st e.1 <;> simp [h]

theorem foldl_listUserStep_temp_ids (st : Store) (g : String) (grp : GroupDir)
    (acc : UsersLists) :
    (grp.foldl (listUserStep st g) acc).temporary.map (·.person_id)
      = acc.temporary.map (·.person_id)
        ++ (grp.filter fun e => is_temp_user st e.1).map (·.1) := by
  induction grp generalizing acc with
  | nil => simp
  | cons e rest ih =>
    rw [List.foldl_cons, ih]
    unfold listUserStep
    by_cases h : is_temp_user st e.1 <;> simp [h]

/-- C9: `group_exists` is true exactly when the API's user listing for the
group reports at least one Person.  The equivalence holds for every store
state, so no operation of the layer can leave the two in disagreement. -/
theorem c9_group_exists_iff_users (st : Store) (g : String) :
    group_exists st g = true ↔ 0 < list_users_total st g := by
  unfold group_exists list_users_total list_users_in_group
  cases hg : getGroup st g with
  | none => simp
  | some grp =>
    have h := foldl_listUserStep_counts st g grp ⟨[], []⟩
    simp only [h]
    cases grp <;> simp

/-- Witness for C9: a store whose group holds one person directory. -/
theorem c9_group_exists_iff_users_witness :
    0 < list_users_total ⟨[("g", [("p", ⟨["a.jpg"], .absent⟩)])]⟩ "g" :=
  (c9_group_exists_iff_users ⟨[("g", [("p", ⟨["a.jpg"], .absent⟩)])]⟩ "g").mp rfl

/-- C4 counterexample: person `P` exists in groups `gA` (temporary) and
`gB` (permanent).  Listing `gB`, whose own stored `is_temp_user` for `P`
is `false`, nevertheless places `P` in the `temporary` partition, because
classification scans all groups and `gA` comes first — the partition does
not match the Person's own metadata within the queried group and is not
independent of other groups' contents. -/
theorem c4_counterexample :
    ((get_user_metadata
        ⟨[("gA", [("P", ⟨[], .stored [("is_temp_user", .jB true)]⟩)]),
          ("gB", [("P", ⟨[], .stored [("is_temp_user", .jB false)]⟩)])]⟩
        "gB" "P").lookup "is_temp_user" = some (.jB false))
    ∧ (list_users_in_group
        ⟨[("gA", [("P", ⟨[], .stored [("is_temp_user", .jB true)]⟩)]),
          ("gB", [("P", ⟨[], .stored [("is_temp_user", .jB false)]⟩)])]⟩
        "gB").temporary.map (·.person_id) = ["P"]
    ∧ (list_users_in_group
        ⟨[("gA", [("P", ⟨[], .stored [("is_temp_user", .jB true)]⟩)]),
          ("gB", [("P", ⟨[], .stored [("is_temp_user", .jB false)]⟩)])]⟩
        "gB").permanent = [] :=
  ⟨rfl, rfl, rfl⟩

/-- C4 amended: `list_users_in_group` places every Person of the group
into exactly one of the two partitions, but the partition is decided by
`is_temp_user(person_id)`, which scans all group directories in data-root
listing order and reads the flag from the first group containing that
identifier (defaulting to Permanent) — not necessarily from the queried
group's own metadata. -/
theorem c4_partition_by_global_scan (st : Store) (g : String) :
    (list_users_in_group st g).permanent.map (·.person_id)
        = (((getGroup st g).getD []).filter fun e => !is_temp_user st e.1).map (·.1)
    ∧ (list_users_in_group st g).temporary.map (·.person_id)
        = (((getGroup st g).getD []).filter fun e => is_temp_user st e.1).map (·.1) := by
  unfold list_users_in_group
  cases hg : getGroup st g with
  | none => simp
  | some grp =>
    constructor
    · rw [foldl_listUserStep_perm_ids]
      simp
    · rw [foldl_listUserStep_temp_ids]
      simp

/-- C10: `get_user_metadata` is total and returns the empty document when
the person directory is missing or its `metadata.json` is absent or
unparseable; consequently `is_temp_user` classifies such a Person as
Permanent, and the listing never places it in the `temporary` partition. -/
theorem c10_missing_metadata_is_permanent (st : Store) (g p : String) :
    (getPerson st g p = none → get_user_metadata st g p = [])
    ∧ (∀ pd : PersonDir, getPerson st g p = some pd →
        (pd.meta = .absent ∨ pd.meta = .corrupt) → get_user_metadata st g p = [])
    ∧ (∀ e : String × GroupDir, st.groups.find? (fun e => (e.2.lookup p).isSome) = some e →
        get_user_metadata st e.1 p = [] → is_temp_user st p = false)
    ∧ (is_temp_user st p = false →
        p ∉ (list_users_in_group st g).temporary.map (·.person_id)) := by
  refine ⟨?_, ?_, ?_, ?_⟩
  · intro h
    unfold get_user_metadata
    rw [h]
  · intro pd hpd hmeta
    unfold get_user_metadata
    rw [hpd]
    change (match pd.meta with | MetaFile.stored d => d | _ => ([] : Doc)) = []
    rcases hmeta with h | h <;> rw [h]
  · intro e hfind hmd
    unfold is_temp_user
    rw [hfind]
    change (match (get_user_metadata st e.1 p).lookup "is_temp_user" with
      | some v => jTruthy v | none => false) = false
    rw [hmd]
    simp [List.lookup]
  · intro hflag hmem
    unfold list_users_in_group at hmem
    cases hg : getGroup st g with
    | none =>
      rw [hg] at hmem
      simp at hmem
    | some grp =>
      rw [hg] at hmem
      rw [foldl_listUserStep_temp_ids] at hmem
      simp only [List.map_nil, List.nil_append, List.mem_map] at hmem
      obtain ⟨e, he, hep⟩ := hmem
      rw [List.mem_filter] at he
      rw [hep, hflag] at he
      simp at he

/-- Witness for C10: a person directory whose `metadata.json` is
unparseable yields the empty document, is classified Permanent, and never
appears in the `temporary` partition. -/
theorem c10_missing_metadata_is_permanent_witness :
    get_user_metadata ⟨[("g", [("q", ⟨[], .corrupt⟩)])]⟩ "g" "q" = []
    ∧ is_temp_user ⟨[("g", [("q", ⟨[], .corrupt⟩)])]⟩ "q" = false
    ∧ "q" ∉ (list_users_in_group ⟨[("g", [("q", ⟨[], .corrupt⟩)])]⟩ "g").temporary.map
        (·.person_id) :=
  ⟨(c10_missing_metadata_is_permanent ⟨[("g", [("q", ⟨[], .corrupt⟩)])]⟩ "g" "q").2.1
      ⟨[], .corrupt⟩ rfl (Or.inr rfl),
   (c10_missing_metadata_is_permanent ⟨[("g", [("q", ⟨[], .corrupt⟩)])]⟩ "g" "q").2.2.1
      ("g", [("q", ⟨[], .corrupt⟩)]) rfl rfl,
   (c10_missing_metadata_is_permanent ⟨[("g", [("q", ⟨[], .corrupt⟩)])]⟩ "g" "q").2.2.2 rfl⟩

/-! ## Side effects of the two ingestion workflows (claim C1) -/

theorem phase2A_entries_ok (g : String) (thr : Rat) (srcImg now : String) (st : Store)
    (xs : List (Nat × FaceObj)) :
    ∀ e ∈ (phase2A g thr srcImg now st xs).1, e.isErr = false := by
  induction xs generalizing st with
  | nil => intro e he; simp [phase2A] at he
  | cons x rest ih =>
    obtain ⟨i, f⟩ := x
    intro e he
    rw [phase2A] at he
    rcases List.mem_cons.mp he with h | h
    · rw [h]; rfl
    · exact ih _ e h

theorem phase2A_events_shape (g : String) (thr : Rat) (srcImg now : String) (st : Store)
    (xs : List (Nat × FaceObj)) :
    (phase2A g thr srcImg now st xs).2.1
      = (phase2A g thr srcImg now st xs).1.flatMap
          (fun e => [Ev.sample g e.person, Ev.metaUp g e.person]) := by
  induction xs generalizing st with
  | nil => simp [phase2A]
  | cons x rest ih =>
    obtain ⟨i, f⟩ := x
    rw [phase2A]
    simp only [List.flatMap_cons, Entry.person]
    rw [ih]
    rfl

theorem phase2B_entries_ok (g : String) (srcImg now : String) (st : Store)
    (xs : List (Nat × FaceObj)) :
    ∀ e ∈ (phase2B g srcImg now st xs).1, e.isErr = false := by
  induction xs generalizing st with
  | nil => intro e he; simp [phase2B] at he
  | cons x rest ih =>
    obtain ⟨i, f⟩ := x
    intro e he
    rw [phase2B] at he
    rcases List.mem_cons.mp he with h | h
    · rw [h]; rfl
    · exact ih _ e h

theorem phase2B_events_shape (g : String) (srcImg now : String) (st : Store)
    (xs : List (Nat × FaceObj)) :
    (phase2B g srcImg now st xs).2.1
      = (phase2B g srcImg now st xs).1.flatMap
          (fun e => [Ev.sample g e.person, Ev.metaUp g e.person]) := by
  induction xs generalizing st with
  | nil => simp [phase2B]
  | cons x rest ih =>
    obtain ⟨i, f⟩ := x
    rw [phase2B]
    simp only [List.flatMap_cons, Entry.person]
    rw [ih]
    rfl

theorem phase1_errs_isErr (i : Nat) (faces : List FaceObj) :
    ∀ e ∈ (phase1 i faces).1, e.isErr = true := by
  induction faces generalizing i with
  | nil => intro e he; simp [phase1] at he
  | cons f rest ih =>
    intro e he
    rw [phase1] at he
    by_cases ha : f.hasArea
    · rw [if_pos ha] at he
      cases hx : f.extract with
      | ok u =>
        rw [hx] at he
        exact ih _ e he
      | error m =>
        rw [hx] at he
        rcases List.mem_cons.mp he with h | h
        · rw [h]; rfl
        · exact ih _ e h
    · rw [if_neg ha] at he
      exact ih _ e he

theorem phase2AT_events_shape (g : String) (thr : Rat) (st : Store) (i : Nat)
    (xs : List FaceObj) :
    (phase2AT g thr st i xs).2.1
      = (phase2AT g thr st i xs).1.map (fun e => Ev.sample g e.person) := by
  induction xs generalizing st i with
  | nil => simp [phase2AT]
  | cons f rest ih =>
    rw [phase2AT]
    cases hx : f.recog with
    | mk succ res =>
      cases succ with
      | true =>
        cases res with
        | nil => exact ih _ _
        | cons fi fis =>
          simp only [List.map_cons]
          rw [← ih]
          rfl
      | false => exact ih _ _

theorem phase2AT_entries_ok (g : String) (thr : Rat) (st : Store) (i : Nat)
    (xs : List FaceObj) :
    ∀ e ∈ (phase2AT g thr st i xs).1, e.isErr = false := by
  induction xs generalizing st i with
  | nil => intro e he; simp [phase2AT] at he
  | cons f rest ih =>
    intro e he
    rw [phase2AT] at he
    cases hx : f.recog with
    | mk succ res =>
      rw [hx] at he
      cases succ with
      | true =>
        cases res with
        | nil => exact ih _ _ e he
        | cons fi fis =>
          rcases List.mem_cons.mp he with h | h
          · rw [h]; rfl
          · exact ih _ _ e h
      | false => exact ih _ _ e he

theorem phase2BT_events_shape (g : String) (st : Store) (i : Nat) (xs : List FaceObj) :
    (phase2BT g st i xs).2.1
      = (phase2BT g st i xs).1.map (fun e => Ev.sample g e.person) := by
  induction xs generalizing st i with
  | nil => simp [phase2BT]
  | cons f rest ih =>
    rw [phase2BT]
    simp only [List.map_cons]
    rw [← ih]
    rfl

theorem phase2BT_entries_ok (g : String) (st : Store) (i : Nat) (xs : List FaceObj) :
    ∀ e ∈ (phase2BT g st i xs).1, e.isErr = false := by
  induction xs generalizing st i with
  | nil => intro e he; simp [phase2BT] at he
  | cons f rest ih =>
    intro e he
    rw [phase2BT] at he
    rcases List.mem_cons.mp he with h | h
    · rw [h]; rfl
    · exact ih _ _ e h

theorem phase1T_errs_isErr (i : Nat) (faces : List FaceObj) :
    ∀ e ∈ (phase1T i faces).1, e.isErr = true := by
  induction faces generalizing i with
  | nil => intro e he; simp [phase1T] at he
  | cons f rest ih =>
    intro e he
    rw [phase1T] at he
    by_cases ha : f.hasArea
    · rw [if_pos ha] at he
      cases hx : f.extract with
      | ok u =>
        rw [hx] at he
        exact ih _ e he
      | error m =>
        rw [hx] at he
        rcases List.mem_cons.mp he with h | h
        · rw [h]; rfl
        · exact ih _ e h
    · rw [if_neg ha] at he
      exact ih _ e he

/-- C1 counterexample: in the train workflow `extract_and_handle_faces`,
one face is successfully processed (its success entry appears in the
results and one Sample write occurs), yet no metadata record is upserted
for the resolved person — refuting "each successfully processed face …
exactly one metadata record upserted" for that workflow. -/
theorem c1_counterexample :
    (extract_and_handle_faces ⟨[]⟩ "g"
        [⟨true, .ok (), (false, []), "t1", "p1", "i1.jpg"⟩] 0).results
      = [TEntry.ok 0 "p1" true]
    ∧ (extract_and_handle_faces ⟨[]⟩ "g"
        [⟨true, .ok (), (false, []), "t1", "p1", "i1.jpg"⟩] 0).events
      = [Ev.sample "g" "p1"]
    ∧ (extract_and_handle_faces ⟨[]⟩ "g"
        [⟨true, .ok (), (false, []), "t1", "p1", "i1.jpg"⟩] 0).events.filter Ev.isMeta
      = [] :=
  ⟨rfl, rfl, rfl⟩

/-- C1 amended: in `add_faces_to_group` every successfully processed face
produces exactly one Sample write followed by exactly one metadata upsert
for its resolved person (the event trace is precisely one
`[sample, metaUp]` pair per success entry, in order); in
`extract_and_handle_faces` every successfully processed face produces
exactly one Sample write and no metadata upsert at all. -/
theorem c1_sample_and_metadata_effects (st : Store) (g : String) (faces : List FaceObj)
    (thr : Rat) (srcImg now : String) :
    (add_faces_to_group st g faces thr srcImg now).events
      = ((add_faces_to_group st g faces thr srcImg now).results.filter
          (fun e => !e.isErr)).flatMap
          (fun e => [Ev.sample g e.person, Ev.metaUp g e.person])
    ∧ (extract_and_handle_faces st g faces thr).events
      = ((extract_and_handle_faces st g faces thr).results.filter
          (fun e => !e.isErr)).map (fun e => Ev.sample g e.person) := by
  constructor
  · unfold add_faces_to_group
    by_cases hf : faces.isEmpty
    · simp [hf]
    · simp only [hf, Bool.false_eq_true, if_false]
      have hferr : (phase1 0 faces).1.filter (fun e => !e.isErr) = [] := by
        rw [List.filter_eq_nil_iff]
        intro e he
        rw [phase1_errs_isErr 0 faces e he]
        simp
      by_cases hm : group_exists (ensureGroup st g) g
          && !(phase1 0 faces).2.isEmpty
      · simp only [hm, if_true]
        rw [List.filter_append, hferr, List.nil_append]
        have hok : (phase2A g thr srcImg now (ensureGroup st g) (phase1 0 faces).2).1.filter
            (fun e => !e.isErr) = (phase2A g thr srcImg now (ensureGroup st g) (phase1 0 faces).2).1 := by
          rw [List.filter_eq_self]
          intro e he
          rw [phase2A_entries_ok g thr srcImg now (ensureGroup st g) (phase1 0 faces).2 e he]
          simp
        rw [hok]
        exact phase2A_events_shape g thr srcImg now (ensureGroup st g) (phase1 0 faces).2
      · simp only [hm, Bool.false_eq_true, if_false]
        rw [List.filter_append, hferr, List.nil_append]
        have hok : (phase2B g srcImg now (ensureGroup st g) (phase1 0 faces).2).1.filter
            (fun e => !e.isErr) = (phase2B g srcImg now (ensureGroup st g) (phase1 0 faces).2).1 := by
          rw [List.filter_eq_self]
          intro e he
          rw [phase2B_entries_ok g srcImg now (ensureGroup st g) (phase1 0 faces).2 e he]
          simp
        rw [hok]
        exact phase2B_events_shape g srcImg now (ensureGroup st g) (phase1 0 faces).2
  · unfold extract_and_handle_faces
    by_cases hf : faces.isEmpty
    · simp [hf]
    · simp only [hf, Bool.false_eq_true, if_false]
      have hferr : (phase1T 0 faces).1.filter (fun e => !e.isErr) = [] := by
        rw [List.filter_eq_nil_iff]
        intro e he
        rw [phase1T_errs_isErr 0 faces e he]
        simp
      by_cases hm : group_exists (ensureGroup st g) g
          && !(phase1T 0 faces).2.isEmpty
      · simp only [hm, if_true]
        rw [List.filter_append, hferr, List.nil_append]
        have hok : (phase2AT g thr (ensureGroup st g) 0 (phase1T 0 faces).2).1.filter
            (fun e => !e.isErr) = (phase2AT g thr (ensureGroup st g) 0 (phase1T 0 faces).2).1 := by
          rw [List.filter_eq_self]
          intro e he
          rw [phase2AT_entries_ok g thr (ensureGroup st g) 0 (phase1T 0 faces).2 e he]
          simp
        rw [hok]
        exact phase2AT_events_shape g thr (ensureGroup st g) 0 (phase1T 0 faces).2
      · simp only [hm, Bool.false_eq_true, if_false]
        rw [List.filter_append, hferr, List.nil_append]
        have hok : (phase2BT g (ensureGroup st g) 0 (phase1T 0 faces).2).1.filter
            (fun e => !e.isErr) = (phase2BT g (ensureGroup st g) 0 (phase1T 0 faces).2).1 := by
          rw [List.filter_eq_self]
          intro e he
          rw [phase2BT_entries_ok g (ensureGroup st g) 0 (phase1T 0 faces).2 e he]
          simp
        rw [hok]
        exact phase2BT_events_shape g (ensureGroup st g) 0 (phase1T 0 faces).2

/-! ## Per-face independence of batch ingestion (claim C7) -/

theorem phase1_errs_idx_ge (k : Nat) (faces : List FaceObj) :
    ∀ e ∈ (phase1 k faces).1, k ≤ e.idx := by
  induction faces generalizing k with
  | nil => intro e he; simp [phase1] at he
  | cons f rest ih =>
    intro e he
    rw [phase1] at he
    by_cases ha : f.hasArea
    · rw [if_pos ha] at he
      cases hx : f.extract with
      | ok u =>
        rw [hx] at he
        exact Nat.le_of_succ_le (ih (k + 1) e he)
      | error m =>
        rw [hx] at he
        rcases List.mem_cons.mp he with h | h
        · subst h; exact Nat.le_refl _
        · exact Nat.le_of_succ_le (ih (k + 1) e h)
    · rw [if_neg ha] at he
      exact Nat.le_of_succ_le (ih (k + 1) e he)

theorem phase1_extr_idx_ge (k : Nat) (faces : List FaceObj) :
    ∀ x ∈ (phase1 k faces).2, k ≤ x.1 := by
  induction faces generalizing k with
  | nil => intro x hx; simp [phase1] at hx
  | cons f rest ih =>
    intro x hx
    rw [phase1] at hx
    by_cases ha : f.hasArea
    · rw [if_pos ha] at hx
      cases he : f.extract with
      | ok u =>
        rw [he] at hx
        rcases List.mem_cons.mp hx with h | h
        · subst h; exact Nat.le_refl _
        · exact Nat.le_of_succ_le (ih (k + 1) x h)
      | error m =>
        rw [he] at hx
        exact Nat.le_of_succ_le (ih (k + 1) x hx)
    · rw [if_neg ha] at hx
      exact Nat.le_of_succ_le (ih (k + 1) x hx)

theorem phase1_errs_count (k : Nat) (faces : List FaceObj) (i : Nat) (h : i < faces.length) :
    (phase1 k faces).1.countP (fun e => e.idx == k + i)
      = if faceFailed (faces.get ⟨i, h⟩) then 1 else 0 := by
  induction faces generalizing k i with
  | nil => simp at h
  | cons f rest ih =>
    cases i with
    | zero =>
      have htail : ∀ e ∈ (phase1 (k + 1) rest).1, ¬((fun e => e.idx == k + 0) e = true) := by
        intro e he hk
        have := phase1_errs_idx_ge (k + 1) rest e he
        simp only [beq_iff_eq] at hk
        omega
      have htail0 : (phase1 (k + 1) rest).1.countP (fun e => e.idx == k + 0) = 0 :=
        List.countP_eq_zero.mpr htail
      rw [phase1]
      by_cases ha : f.hasArea
      · rw [if_pos ha]
        cases hx : f.extract with
        | ok u =>
          show (phase1 (k + 1) rest).1.countP (fun e => e.idx == k + 0) = _
          rw [htail0]
          simp [faceFailed, ha, hx]
        | error m =>
          show ((Entry.err k m :: (phase1 (k + 1) rest).1).countP fun e => e.idx == k + 0) = _
          rw [List.countP_cons, htail0]
          simp [faceFailed, ha, hx, Entry.idx]
      · rw [if_neg ha]
        rw [htail0]
        simp [faceFailed, ha]
    | succ j =>
      have harith : k + (j + 1) = (k + 1) + j := by omega
      have htail := ih (k + 1) j (by simpa using Nat.lt_of_succ_lt_succ h)
      rw [phase1]
      by_cases ha : f.hasArea
      · rw [if_pos ha]
        cases hx : f.extract with
        | ok u =>
          show (phase1 (k + 1) rest).1.countP (fun e => e.idx == k + (j + 1)) = _
          rw [harith, htail]
          rfl
        | error m =>
          show ((Entry.err k m :: (phase1 (k + 1) rest).1).countP
              fun e => e.idx == k + (j + 1)) = _
          rw [List.countP_cons]
          have hner : ((Entry.err k m).idx == k + (j + 1)) = false := by
            simp only [Entry.idx]
            rw [beq_eq_false_iff_ne]
            omega
          rw [hner]
          simp only [Bool.false_eq_true, if_false, Nat.add_zero]
          rw [harith, htail]
          rfl
      · rw [if_neg ha]
        rw [harith, htail]
        rfl

theorem phase1_extr_count (k : Nat) (faces : List FaceObj) (i : Nat) (h : i < faces.length) :
    (phase1 k faces).2.countP (fun x => x.1 == k + i)
      = if (faces.get ⟨i, h⟩).hasArea && !faceFailed (faces.get ⟨i, h⟩) then 1 else 0 := by
  induction faces generalizing k i with
  | nil => simp at h
  | cons f rest ih =>
    cases i with
    | zero =>
      have htail : ∀ x ∈ (phase1 (k + 1) rest).2, ¬((fun x : Nat × FaceObj => x.1 == k + 0) x = true) := by
        intro x hx hk
        have := phase1_extr_idx_ge (k + 1) rest x hx
        simp only [beq_iff_eq] at hk
        omega
      have htail0 : (phase1 (k + 1) rest).2.countP (fun x => x.1 == k + 0) = 0 :=
        List.countP_eq_zero.mpr htail
      rw [phase1]
      by_cases ha : f.hasArea
      · rw [if_pos ha]
        cases hx : f.extract with
        | ok u =>
          show (((k, f) :: (phase1 (k + 1) rest).2).countP fun x => x.1 == k + 0) = _
          rw [List.countP_cons, htail0]
          simp [faceFailed, ha, hx]
        | error m =>
          show (phase1 (k + 1) rest).2.countP (fun x => x.1 == k + 0) = _
          rw [htail0]
          simp [faceFailed, ha, hx]
      · rw [if_neg ha]
        rw [htail0]
        simp [ha]
    | succ j =>
      have harith : k + (j + 1) = (k + 1) + j := by omega
      have htail := ih (k + 1) j (by simpa using Nat.lt_of_succ_lt_succ h)
      rw [phase1]
      by_cases ha : f.hasArea
      · rw [if_pos ha]
        cases hx : f.extract with
        | ok u =>
          show (((k, f) :: (phase1 (k + 1) rest).2).countP fun x => x.1 == k + (j + 1)) = _
          rw [List.countP_cons]
          have hner : (((k, f) : Nat × FaceObj).1 == k + (j + 1)) = false := by
            rw [beq_eq_false_iff_ne]
            omega
          rw [hner]
          simp only [Bool.false_eq_true, if_false, Nat.add_zero]
          rw [harith, htail]
          rfl
        | error m =>
          show (phase1 (k + 1) rest).2.countP (fun x => x.1 == k + (j + 1)) = _
          rw [harith, htail]
          rfl
      · rw [if_neg ha]
        rw [harith, htail]
        rfl

theorem phase2A_count (g : String) (thr : Rat) (srcImg now : String) (st : Store)
    (xs : List (Nat × FaceObj)) (n : Nat) :
    (phase2A g thr srcImg now st xs).1.countP (fun e => e.idx == n)
      = xs.countP (fun x => x.1 == n) := by
  induction xs generalizing st with
  | nil => simp [phase2A]
  | cons x rest ih =>
    obtain ⟨i, f⟩ := x
    rw [phase2A]
    rw [List.countP_cons, List.countP_cons, ih]
    rfl

theorem phase2B_count (g : String) (srcImg now : String) (st : Store)
    (xs : List (Nat × FaceObj)) (n : Nat) :
    (phase2B g srcImg now st xs).1.countP (fun e => e.idx == n)
      = xs.countP (fun x => x.1 == n) := by
  induction xs generalizing st with
  | nil => simp [phase2B]
  | cons x rest ih =>
    obtain ⟨i, f⟩ := x
    rw [phase2B]
    rw [List.countP_cons, List.countP_cons, ih]
    rfl

/-- C7: in `add_faces_to_group`, for every detected face (non-empty
facial area) at index `i`, the returned results contain exactly one entry
with `face_index = i` — an error entry exactly when that face's extraction
failed — no matter what happens to any other face of the batch: a failure
on face `i` neither suppresses nor alters the reporting of faces
`i+1..N`. -/
theorem c7_batch_per_face_independence (st : Store) (g : String) (faces : List FaceObj)
    (thr : Rat) (srcImg now : String) (i : Nat) (h : i < faces.length)
    (ha : (faces.get ⟨i, h⟩).hasArea = true) :
    ((add_faces_to_group st g faces thr srcImg now).results.countP (fun e => e.idx == i) = 1)
    ∧ (∀ e ∈ (add_faces_to_group st g faces thr srcImg now).results,
        e.idx = i → (e.isErr = true ↔ faceFailed (faces.get ⟨i, h⟩) = true)) := by
  have hf : faces.isEmpty = false := by
    cases faces with
    | nil => exact absurd h (by simp)
    | cons a l => rfl
  have herrs := phase1_errs_count 0 faces i h
  have hextr := phase1_extr_count 0 faces i h
  rw [Nat.zero_add] at herrs hextr
  unfold add_faces_to_group
  simp only [hf, Bool.false_eq_true, if_false]
  by_cases hm : group_exists (ensureGroup st g) g && !(phase1 0 faces).2.isEmpty
  · simp only [hm, if_true]
    have hcnt : ((phase1 0 faces).1
          ++ (phase2A g thr srcImg now (ensureGroup st g) (phase1 0 faces).2).1).countP
          (fun e => e.idx == i) = 1 := by
      rw [List.countP_append, herrs,
        phase2A_count g thr srcImg now (ensureGroup st g) (phase1 0 faces).2 i, hextr]
      by_cases hff : faceFailed (faces.get ⟨i, h⟩) <;>
        simp only [List.get_eq_getElem] at hff ha ⊢ <;> simp [hff, ha]
    refine ⟨hcnt, ?_⟩
    intro e he hei
    rcases List.mem_append.mp he with hmem | hmem
    · rw [phase1_errs_isErr 0 faces e hmem]
      constructor
      · intro _
        by_contra hff
        have hffF : faceFailed (faces.get ⟨i, h⟩) = false := by
          cases hq : faceFailed (faces.get ⟨i, h⟩)
          · rfl
          · exact absurd hq hff
        have hpos : 0 < (phase1 0 faces).1.countP (fun e => e.idx == i) :=
          List.countP_pos_iff.mpr ⟨e, hmem, by simp [hei]⟩
        rw [herrs, hffF] at hpos
        simp at hpos
      · intro _
        rfl
    · rw [phase2A_entries_ok g thr srcImg now (ensureGroup st g) (phase1 0 faces).2 e hmem]
      have hpos : 0 < (phase2A g thr srcImg now (ensureGroup st g) (phase1 0 faces).2).1.countP
          (fun e => e.idx == i) :=
        List.countP_pos_iff.mpr ⟨e, hmem, by simp [hei]⟩
      rw [phase2A_count, hextr] at hpos
      constructor
      · intro hcontra
        exact absurd hcontra (by simp)
      · intro hff
        rw [ha, hff] at hpos
        simp at hpos
  · simp only [hm, Bool.false_eq_true, if_false]
    have hcnt : ((phase1 0 faces).1
          ++ (phase2B g srcImg now (ensureGroup st g) (phase1 0 faces).2).1).countP
          (fun e => e.idx == i) = 1 := by
      rw [List.countP_append, herrs,
        phase2B_count g srcImg now (ensureGroup st g) (phase1 0 faces).2 i, hextr]
      by_cases hff : faceFailed (faces.get ⟨i, h⟩) <;>
        simp only [List.get_eq_getElem] at hff ha ⊢ <;> simp [hff, ha]
    refine ⟨hcnt, ?_⟩
    intro e he hei
    rcases List.mem_append.mp he with hmem | hmem
    · rw [phase1_errs_isErr 0 faces e hmem]
      constructor
      · intro _
        by_contra hff
        have hffF : faceFailed (faces.get ⟨i, h⟩) = false := by
          cases hq : faceFailed (faces.get ⟨i, h⟩)
          · rfl
          · exact absurd hq hff
        have hpos : 0 < (phase1 0 faces).1.countP (fun e => e.idx == i) :=
          List.countP_pos_iff.mpr ⟨e, hmem, by simp [hei]⟩
        rw [herrs, hffF] at hpos
        simp at hpos
      · intro _
        rfl
    · rw [phase2B_entries_ok g srcImg now (ensureGroup st g) (phase1 0 faces).2 e hmem]
      have hpos : 0 < (phase2B g srcImg now (ensureGroup st g) (phase1 0 faces).2).1.countP
          (fun e => e.idx == i) :=
        List.countP_pos_iff.mpr ⟨e, hmem, by simp [hei]⟩
      rw [phase2B_count, hextr] at hpos
      constructor
      · intro hcontra
        exact absurd hcontra (by simp)
      · intro hff
        rw [ha, hff] at hpos
        simp at hpos

/-- Witness for C7: face 0 fails extraction, face 1 succeeds; both still
get exactly one result entry each. -/
theorem c7_batch_per_face_independence_witness :
    ((add_faces_to_group ⟨[]⟩ "g"
        [⟨true, .error "boom", (false, []), "t0", "p0", "i0.jpg"⟩,
         ⟨true, .ok (), (false, []), "t1", "p1", "i1.jpg"⟩] 0 "s" "n").results.countP
        (fun e => e.idx == 0) = 1)
    ∧ ((add_faces_to_group ⟨[]⟩ "g"
        [⟨true, .error "boom", (false, []), "t0", "p0", "i0.jpg"⟩,
         ⟨true, .ok (), (false, []), "t1", "p1", "i1.jpg"⟩] 0 "s" "n").results.countP
        (fun e => e.idx == 1) = 1) :=
  ⟨(c7_batch_per_face_independence ⟨[]⟩ "g"
      [⟨true, .error "boom", (false, []), "t0", "p0", "i0.jpg"⟩,
       ⟨true, .ok (), (false, []), "t1", "p1", "i1.jpg"⟩] 0 "s" "n" 0 (by decide) rfl).1,
   (c7_batch_per_face_independence ⟨[]⟩ "g"
      [⟨true, .error "boom", (false, []), "t0", "p0", "i0.jpg"⟩,
       ⟨true, .ok (), (false, []), "t1", "p1", "i1.jpg"⟩] 0 "s" "n" 1 (by decide) rfl).1⟩

/-! ## Freshness of collision-resolved filenames (used by claim C8) -/

theorem digitVal_digitChar : ∀ d, d < 10 → digitVal (digitChar d) = d := by decide

theorem decode_natRepr (n : Nat) : decodeRepr (natRepr n) = n := by
  unfold natRepr
  by_cases hn : n = 0
  · subst hn
    decide
  · rw [if_neg hn]
    unfold decodeRepr
    show Nat.ofDigits 10 ((((Nat.digits 10 n).map digitChar).reverse).reverse.map digitVal) = n
    rw [List.reverse_reverse, List.map_map]
    have hmap : (Nat.digits 10 n).map (digitVal ∘ digitChar) = Nat.digits 10 n := by
      have h10 : (1 : Nat) < 10 := by norm_num
      conv_rhs => rw [← List.map_id (Nat.digits 10 n)]
      apply List.map_congr_left
      intro d hd
      simp only [Function.comp_apply, id]
      exact digitVal_digitChar d (Nat.digits_lt_base h10 hd)
    rw [hmap, Nat.ofDigits_digits]

theorem natRepr_inj {m n : Nat} (h : natRepr m = natRepr n) : m = n := by
  rw [← decode_natRepr m, ← decode_natRepr n, h]

theorem candName_inj (base ext : String) {c c' : Nat}
    (h : candName base ext c = candName base ext c') : c = c' := by
  unfold candName at h
  have hd := congrArg String.data h
  simp only [String.data_append, List.append_assoc] at hd
  have h1 := List.append_cancel_left hd
  have h2 := List.append_cancel_left h1
  have h3 := List.append_cancel_right h2
  exact natRepr_inj (String.ext h3)

theorem uniqueNameAux_not_mem (existing : List String) (base ext : String) :
    ∀ fuel c, (∃ j ∈ List.range' c fuel, candName base ext j ∉ existing) →
      uniqueNameAux existing base ext fuel c ∉ existing := by
  intro fuel
  induction fuel with
  | zero =>
    intro c h
    obtain ⟨j, hj, _⟩ := h
    simp at hj
  | succ n ih =>
    intro c h
    rw [uniqueNameAux]
    by_cases hc : candName base ext c ∈ existing
    · simp only [hc, if_true]
      apply ih
      obtain ⟨j, hj, hjn⟩ := h
      rw [List.range'_succ] at hj
      rcases List.mem_cons.mp hj with rfl | hj'
      · exact absurd hc hjn
      · exact ⟨j, hj', hjn⟩
    · simp only [hc, if_false]
      exact not_false

theorem uniqueName_not_mem (existing : List String) (filename : String) :
    uniqueName existing filename ∉ existing := by
  unfold uniqueName
  by_cases hf : filename ∈ existing
  · simp only [hf, if_true]
    apply uniqueNameAux_not_mem
    by_contra hno
    push_neg at hno
    have hnodup : ((List.range' 1 (existing.length + 1)).map
        (candName (splitExt filename).1 (splitExt filename).2)).Nodup := by
      refine List.Nodup.map ?_ (List.nodup_range' 1 (existing.length + 1))
      intro a b hab
      exact candName_inj _ _ hab
    have hsub : ((List.range' 1 (existing.length + 1)).map
        (candName (splitExt filename).1 (splitExt filename).2)) ⊆ existing := by
      intro s hs
      obtain ⟨j, hj, rfl⟩ := List.mem_map.mp hs
      exact hno j hj
    have hlen := (List.Nodup.subperm hnodup hsub).length_le
    simp only [List.length_map, List.length_range'] at hlen
    omega
  · simp only [hf, if_false]
    exact not_false

/-! ## Store-step lemmas for `merge_users` (claims C2, C6, C8) -/

theorem lookup_filter_ne {beta : Type} (l : List (String × beta)) (S T : String) (h : T ≠ S) :
    (l.filter fun q => q.1 ≠ S).lookup T = l.lookup T := by
  induction l with
  | nil => simp
  | cons e rest ih =>
    obtain ⟨a, b⟩ := e
    rw [List.filter_cons]
    by_cases ha : a = S
    · subst ha
      rw [if_neg (by simp)]
      rw [ih, lookup_cons, if_neg h]
    · rw [if_pos (by simp [ha])]
      rw [lookup_cons, lookup_cons, ih]

theorem lookup_filter_self {beta : Type} (l : List (String × beta)) (S : String) :
    (l.filter fun q => q.1 ≠ S).lookup S = none := by
  induction l with
  | nil => simp
  | cons e rest ih =>
    obtain ⟨a, b⟩ := e
    rw [List.filter_cons]
    by_cases ha : a = S
    · subst ha
      rw [if_neg (by simp)]
      exact ih
    · rw [if_pos (by simp [ha])]
      rw [lookup_cons, if_neg (Ne.symm ha)]
      exact ih

theorem ensureGroup_noop (st : Store) (g : String) (h : getGroup st g ≠ none) :
    ensureGroup st g = st := by
  unfold ensureGroup
  cases hgg : st.groups.lookup g with
  | some grp => rfl
  | none => exact absurd hgg h

theorem create_person_directory_noop (st : Store) (g p : String)
    (h : getPerson st g p ≠ none) :
    create_person_directory st g p = st := by
  have hg : getGroup st g ≠ none := by
    unfold getPerson at h
    intro hc
    rw [hc] at h
    exact h rfl
  have he : ensureGroup st g = st := ensureGroup_noop st g hg
  cases hp : getPerson st g p with
  | some pd =>
    unfold create_person_directory
    rw [he]
    show (match getPerson st g p with
      | some _ => st
      | none => ⟨st.groups.map fun e =>
          if e.1 = g then (e.1, e.2 ++ [(p, ⟨[], .absent⟩)]) else e⟩) = st
    rw [hp]
  | none => exact absurd hp h

theorem getPerson_create_ne (st : Store) (g p p' : String) (h : p' ≠ p) :
    getPerson (create_person_directory st g p) g p' = getPerson (ensureGroup st g) g p' := by
  unfold create_person_directory
  cases hp : getPerson (ensureGroup st g) g p with
  | some pd =>
    show getPerson (match getPerson (ensureGroup st g) g p with
      | some _ => ensureGroup st g
      | none => ⟨(ensureGroup st g).groups.map fun e =>
          if e.1 = g then (e.1, e.2 ++ [(p, ⟨[], .absent⟩)]) else e⟩) g p' = _
    rw [hp]
  | none =>
    show getPerson (match getPerson (ensureGroup st g) g p with
      | some _ => ensureGroup st g
      | none => ⟨(ensureGroup st g).groups.map fun e =>
          if e.1 = g then (e.1, e.2 ++ [(p, ⟨[], .absent⟩)]) else e⟩) g p' = _
    rw [hp]
    unfold getPerson getGroup
    have hmap := lookup_of_map_modify (ensureGroup st g).groups g
      (fun grp => grp ++ [(p, (⟨[], .absent⟩ : PersonDir))])
    rw [hmap]
    cases hgg : (ensureGroup st g).groups.lookup g with
    | none => rfl
    | some grp =>
      simp only [Option.map_some']
      show (grp ++ [(p, (⟨[], .absent⟩ : PersonDir))]).lookup p' = grp.lookup p'
      exact lookup_append_single_ne grp p p' _ h

theorem getPerson_save (st : Store) (g p : String) (d : Doc) (now : String) :
    getPerson (save_user_metadata st g p d now) g p
      = some ⟨((getPerson st g p).getD ⟨[], .absent⟩).images,
          .stored (let d1 := setKey d "last_updated" (.jS now)
            if hasKey d1 "is_temp_user" then d1 else setKey d1 "is_temp_user" (.jB false))⟩ := by
  unfold save_user_metadata
  rw [getPerson_updatePerson_self, getPerson_create_self]
  rfl

theorem getPerson_save_ne (st : Store) (g p p' : String) (d : Doc) (now : String)
    (hgrp : getGroup st g ≠ none) (h : p' ≠ p) :
    getPerson (save_user_metadata st g p d now) g p' = getPerson st g p' := by
  unfold save_user_metadata
  rw [getPerson_updatePerson_ne_person _ _ _ _ _ h, getPerson_create_ne _ _ _ _ h,
    ensureGroup_noop st g hgrp]

theorem moveOneFile_target (st : Store) (g T fn : String) (tpd : PersonDir)
    (h : getPerson st g T = some tpd) :
    getPerson (moveOneFile st g T fn).1 g T
      = some ⟨tpd.images ++ [uniqueName (personFiles tpd) fn], tpd.meta⟩ := by
  unfold moveOneFile
  simp only [h]
  rw [getPerson_updatePerson_self, h]
  have hfresh : uniqueName (personFiles tpd) fn ∉ tpd.images := fun hmem =>
    uniqueName_not_mem (personFiles tpd) fn (List.mem_append_left _ hmem)
  simp only [Option.map_some']
  rw [if_neg hfresh]

theorem moveOneFile_other (st : Store) (g T fn p : String) (h : p ≠ T) :
    getPerson (moveOneFile st g T fn).1 g p = getPerson st g p := by
  unfold moveOneFile
  exact getPerson_updatePerson_ne_person _ _ _ _ _ h

theorem moveFold_target (g T : String) (files : List String) :
    ∀ st tpd, getPerson st g T = some tpd →
      ∃ imgs, getPerson (moveAll g T files st) g T = some ⟨imgs, tpd.meta⟩
        ∧ imgs.length = tpd.images.length + files.length := by
  unfold moveAll
  induction files with
  | nil =>
    intro st tpd h
    exact ⟨tpd.images, by simpa using h, by simp⟩
  | cons fn rest ih =>
    intro st tpd h
    have hstep := moveOneFile_target st g T fn tpd h
    obtain ⟨imgs, hget, hlen⟩ := ih (moveOneFile st g T fn).1
      ⟨tpd.images ++ [uniqueName (personFiles tpd) fn], tpd.meta⟩ hstep
    refine ⟨imgs, by simpa using hget, ?_⟩
    simp at hlen
    rw [hlen]
    simp
    omega

theorem moveFold_other (g T : String) (files : List String) (p : String) (h : p ≠ T) :
    ∀ st, getPerson (moveAll g T files st) g p = getPerson st g p := by
  unfold moveAll
  induction files with
  | nil => intro st; rfl
  | cons fn rest ih =>
    intro st
    rw [List.foldl_cons, ih, moveOneFile_other st g T fn p h]

theorem getPerson_removeSource (stM : Store) (g S p : String) (h : p ≠ S) :
    getPerson (removePerson stM g S) g p = getPerson stM g p := by
  unfold removePerson getPerson getGroup
  have hmap := lookup_of_map_modify stM.groups g (fun grp => grp.filter fun q => q.1 ≠ S)
  rw [hmap]
  cases hgg : stM.groups.lookup g with
  | none => rfl
  | some grp =>
    simp only [Option.map_some']
    show (grp.filter fun q => q.1 ≠ S).lookup p = grp.lookup p
    exact lookup_filter_ne grp S p h

theorem getPerson_removeSource_self (stM : Store) (g S : String) :
    getPerson (removePerson stM g S) g S = none := by
  unfold removePerson getPerson getGroup
  have hmap := lookup_of_map_modify stM.groups g (fun grp => grp.filter fun q => q.1 ≠ S)
  rw [hmap]
  cases hgg : stM.groups.lookup g with
  | none => rfl
  | some grp =>
    simp only [Option.map_some']
    show (grp.filter fun q => q.1 ≠ S).lookup S = none
    exact lookup_filter_self grp S

theorem mergeOneSource_valid_eq (g T S : String) (st : Store) (info : MergedInfo)
    (spd : PersonDir) (hS : getPerson st g S = some spd) (hST : S ≠ T) :
    mergeOneSource g T st info S =
      (removePerson (moveAll g T ((personFiles spd).filter isImgName) st) g S,
       { info with
          merged_sources := info.merged_sources ++
            [⟨S, ((personFiles spd).filter isImgName).length,
              is_temp_user (moveAll g T ((personFiles spd).filter isImgName) st) S,
              get_user_metadata (moveAll g T ((personFiles spd).filter isImgName) st) g S⟩],
          total_faces_moved := info.total_faces_moved
            + ((personFiles spd).filter isImgName).length }) := by
  unfold mergeOneSource
  simp only [hS]
  rw [if_neg hST]

theorem mergeOneSource_target_meta (g T src : String) (st : Store) (info : MergedInfo)
    (tpd : PersonDir) (hT : getPerson st g T = some tpd) :
    ∃ imgs, getPerson (mergeOneSource g T st info src).1 g T = some ⟨imgs, tpd.meta⟩ := by
  cases hS : getPerson st g src with
  | none =>
    refine ⟨tpd.images, ?_⟩
    unfold mergeOneSource
    simp only [hS]
    exact hT
  | some spd =>
    by_cases hsrc : src = T
    · refine ⟨tpd.images, ?_⟩
      unfold mergeOneSource
      simp only [hS]
      rw [if_pos hsrc]
      exact hT
    · rw [mergeOneSource_valid_eq g T src st info spd hS hsrc]
      obtain ⟨imgs, hget, _⟩ :=
        moveFold_target g T ((personFiles spd).filter isImgName) st tpd hT
      refine ⟨imgs, ?_⟩
      rw [getPerson_removeSource _ _ _ _ (Ne.symm hsrc)]
      exact hget

theorem mergeFold_target_meta (g T : String) (sources : List String) :
    ∀ st info tpd, getPerson st g T = some tpd →
      ∃ imgs, getPerson ((sources.foldl
          (fun acc src => mergeOneSource g T acc.1 acc.2 src) (st, info)).1) g T
        = some ⟨imgs, tpd.meta⟩ := by
  induction sources with
  | nil =>
    intro st info tpd h
    exact ⟨tpd.images, h⟩
  | cons src rest ih =>
    intro st info tpd h
    obtain ⟨imgs, hget⟩ := mergeOneSource_target_meta g T src st info tpd h
    rw [List.foldl_cons]
    obtain ⟨imgs', hget'⟩ := ih (mergeOneSource g T st info src).1
      (mergeOneSource g T st info src).2 ⟨imgs, tpd.meta⟩ hget
    exact ⟨imgs', hget'⟩

theorem personFiles_filter_img (spd : PersonDir)
    (h : ∀ f ∈ spd.images, isImgName f = true) :
    (personFiles spd).filter isImgName = spd.images := by
  have hmj : isImgName "metadata.json" = false := by decide
  unfold personFiles
  rw [List.filter_append, List.filter_eq_self.mpr h]
  cases hm : spd.meta
  · simp
  · simp [List.filter_cons, hmj]
  · simp [List.filter_cons, hmj]

/-- C8: merging an existing source `S` (k Samples) into an existing,
different target `T` (m Samples) succeeds, leaves the target with `m + k`
Samples (generated names never overwrite an existing file), removes the
source person directory, reports `k` moved faces with no errors, and
appends exactly one `merge_history` event naming `S` and the count `k`. -/
theorem c8_single_source_merge (st : Store) (g S T now : String) (spd tpd : PersonDir)
    (hS : getPerson st g S = some spd) (hT : getPerson st g T = some tpd)
    (hST : S ≠ T)
    (hsimg : ∀ f ∈ spd.images, isImgName f = true)
    (hmh : ((get_user_metadata st g T).lookup "merge_history" = none)
      ∨ (∃ ys, (get_user_metadata st g T).lookup "merge_history" = some (.jArr ys))) :
    (merge_users st g [S] T now).success = true
    ∧ ((merge_users st g [S] T now).info.map (·.total_faces_moved)
        = some spd.images.length)
    ∧ ((merge_users st g [S] T now).info.map (·.errors) = some [])
    ∧ ((merge_users st g [S] T now).info.map (fun i => i.merged_sources.map (·.person_id))
        = some [S])
    ∧ getPerson (merge_users st g [S] T now).store g S = none
    ∧ ((getPerson (merge_users st g [S] T now).store g T).map (fun pd => pd.images.length)
        = some (tpd.images.length + spd.images.length))
    ∧ (∃ xs0 : List JVal,
        (((get_user_metadata st g T).lookup "merge_history" = none ∧ xs0 = [])
          ∨ (get_user_metadata st g T).lookup "merge_history" = some (.jArr xs0))
        ∧ (get_user_metadata (merge_users st g [S] T now).store g T).lookup "merge_history"
          = some (.jArr (xs0 ++
              [.jObj [("merged_at", .jS now),
                      ("merged_sources", .jArr [.jS S]),
                      ("total_faces_added", .jN (spd.images.length : Rat))]]))) := by
  have hfiles : (personFiles spd).filter isImgName = spd.images :=
    personFiles_filter_img spd hsimg
  have hTex : personExists st g T = true := by
    unfold personExists
    rw [hT]
    rfl
  obtain ⟨imgs, hmov, hlen⟩ := moveFold_target g T spd.images st tpd hT
  have hR_T : getPerson (removePerson (moveAll g T spd.images st) g S) g T
      = some ⟨imgs, tpd.meta⟩ := by
    rw [getPerson_removeSource _ _ _ _ (Ne.symm hST)]
    exact hmov
  have hR_S : getPerson (removePerson (moveAll g T spd.images st) g S) g S = none :=
    getPerson_removeSource_self _ _ _
  have hgrpR : getGroup (removePerson (moveAll g T spd.images st) g S) g ≠ none := by
    intro hc
    unfold getPerson at hR_T
    rw [hc] at hR_T
    exact Option.noConfusion hR_T
  have htd : get_user_metadata (removePerson (moveAll g T spd.images st) g S) g T
      = get_user_metadata st g T := by
    unfold get_user_metadata
    rw [hR_T, hT]
  obtain ⟨xs0, hxs0, hgetD⟩ : ∃ xs0 : List JVal,
      (((get_user_metadata st g T).lookup "merge_history" = none ∧ xs0 = [])
        ∨ (get_user_metadata st g T).lookup "merge_history" = some (.jArr xs0))
      ∧ ((get_user_metadata st g T).lookup "merge_history").getD (.jArr [])
          = .jArr xs0 := by
    rcases hmh with hnone | ⟨ys, hys⟩
    · exact ⟨[], Or.inl ⟨hnone, rfl⟩, by rw [hnone]; rfl⟩
    · exact ⟨ys, Or.inr hys, by rw [hys]; rfl⟩
  unfold merge_users
  simp only [hTex, if_true, List.foldl_cons, List.foldl_nil]
  rw [mergeOneSource_valid_eq g T S st ⟨T, [], 0, [], true⟩ spd hS hST]
  rw [hfiles]
  dsimp only
  simp only [Bool.not_true, Bool.false_eq_true, if_false]
  rw [htd, hgetD]
  dsimp only
  refine ⟨rfl, ?_, rfl, rfl, ?_, ?_, ?_⟩
  · simp
  · rw [getPerson_save_ne _ _ _ _ _ _ hgrpR hST]
    exact hR_S
  · rw [getPerson_save, hR_T]
    simp only [Option.getD_some, Option.map_some']
    rw [hlen]
  · refine ⟨xs0, hxs0, ?_⟩
    rw [get_user_metadata_save]
    dsimp only
    simp only [List.nil_append, List.map_cons, List.map_nil, Nat.zero_add]
    by_cases hk : hasKey (setKey (setKey (get_user_metadata st g T)
        "merge_history" (.jArr (xs0 ++
          [.jObj [("merged_at", .jS now),
                  ("merged_sources", .jArr [.jS S]),
                  ("total_faces_added", .jN (spd.images.length : Rat))]])))
        "last_updated" (.jS now)) "is_temp_user"
    · simp only [hk, if_true]
      rw [lookup_setKey_ne _ _ _ _ (by decide)]
      exact lookup_setKey_self _ _ _
    · simp only [hk, Bool.false_eq_true, if_false]
      rw [lookup_setKey_ne _ _ _ _ (by decide), lookup_setKey_ne _ _ _ _ (by decide)]
      exact lookup_setKey_self _ _ _

/-- Witness for C8: source `S` with two samples merged into target `T`
with one sample. -/
theorem c8_single_source_merge_witness :
    (merge_users ⟨[("g", [("T", ⟨["t1.jpg"], .stored [("is_temp_user", .jB false)]⟩),
        ("S", ⟨["a.jpg", "b.jpg"], .absent⟩)])]⟩ "g" ["S"] "T" "now").success = true
    ∧ ((merge_users ⟨[("g", [("T", ⟨["t1.jpg"], .stored [("is_temp_user", .jB false)]⟩),
        ("S", ⟨["a.jpg", "b.jpg"], .absent⟩)])]⟩ "g" ["S"] "T" "now").info.map
        (·.total_faces_moved) = some 2)
    ∧ getPerson (merge_users ⟨[("g", [("T", ⟨["t1.jpg"], .stored [("is_temp_user", .jB false)]⟩),
        ("S", ⟨["a.jpg", "b.jpg"], .absent⟩)])]⟩ "g" ["S"] "T" "now").store "g" "S" = none
    ∧ ((getPerson (merge_users ⟨[("g", [("T", ⟨["t1.jpg"], .stored [("is_temp_user", .jB false)]⟩),
        ("S", ⟨["a.jpg", "b.jpg"], .absent⟩)])]⟩ "g" ["S"] "T" "now").store "g" "T").map
        (fun pd => pd.images.length) = some 3) := by
  have h := c8_single_source_merge
    ⟨[("g", [("T", ⟨["t1.jpg"], .stored [("is_temp_user", .jB false)]⟩),
        ("S", ⟨["a.jpg", "b.jpg"], .absent⟩)])]⟩ "g" "S" "T" "now"
    ⟨["a.jpg", "b.jpg"], .absent⟩ ⟨["t1.jpg"], .stored [("is_temp_user", .jB false)]⟩
    rfl rfl (by decide) (by decide) (Or.inl rfl)
  exact ⟨h.1, h.2.1, h.2.2.2.2.1, h.2.2.2.2.2.1⟩

/-! ## Self-merge behaviour (claim C2) -/

theorem mergeOneSource_self_eq (g P : String) (st : Store) (info : MergedInfo)
    (ppd : PersonDir) (hP : getPerson st g P = some ppd) :
    mergeOneSource g P st info P =
      (st, { info with errors := info.errors ++ ["Cannot merge user into itself: " ++ P] }) := by
  unfold mergeOneSource
  simp only [hP]
  simp

/-- C2 counterexample: a self-merge request for an existing person `P1`
does not fail — it returns success with zero samples moved, and it does
mutate the store before returning: a `merge_history` event (with an empty
source list) is appended to `P1`'s metadata where none existed. -/
theorem c2_counterexample :
    (merge_users ⟨[("g", [("P1", ⟨["a.jpg"], .stored [("is_temp_user", .jB false)]⟩)])]⟩
        "g" ["P1"] "P1" "T1").success = true
    ∧ ((get_user_metadata (merge_users
          ⟨[("g", [("P1", ⟨["a.jpg"], .stored [("is_temp_user", .jB false)]⟩)])]⟩
          "g" ["P1"] "P1" "T1").store "g" "P1").lookup "merge_history"
        = some (.jArr [.jObj [("merged_at", .jS "T1"), ("merged_sources", .jArr []),
            ("total_faces_added", .jN 0)]])) :=
  ⟨rfl, rfl⟩

/-- C2 amended: a self-merge (`source_person_ids = [P]`,
`target_person_id = P`, `P` existing) is not rejected: the source is
skipped with a recorded per-source error and zero Samples are moved, the
person's sample files are untouched, but the call reports success
("Successfully merged 0 users") and still mutates the store by appending
one `merge_history` event (empty source list, count 0) to `P`'s metadata
and re-stamping `last_updated`. -/
theorem c2_self_merge (st : Store) (g P now : String) (ppd : PersonDir)
    (hP : getPerson st g P = some ppd)
    (hmh : ((get_user_metadata st g P).lookup "merge_history" = none)
      ∨ (∃ ys, (get_user_metadata st g P).lookup "merge_history" = some (.jArr ys))) :
    (merge_users st g [P] P now).success = true
    ∧ (merge_users st g [P] P now).message = "Successfully merged 0 users into " ++ P
    ∧ ((merge_users st g [P] P now).info.map (·.total_faces_moved) = some 0)
    ∧ ((merge_users st g [P] P now).info.map (·.errors)
        = some ["Cannot merge user into itself: " ++ P])
    ∧ ((merge_users st g [P] P now).info.map (·.merged_sources) = some [])
    ∧ ((getPerson (merge_users st g [P] P now).store g P).map (·.images) = some ppd.images)
    ∧ (∃ xs0 : List JVal,
        (((get_user_metadata st g P).lookup "merge_history" = none ∧ xs0 = [])
          ∨ (get_user_metadata st g P).lookup "merge_history" = some (.jArr xs0))
        ∧ (get_user_metadata (merge_users st g [P] P now).store g P).lookup "merge_history"
          = some (.jArr (xs0 ++
              [.jObj [("merged_at", .jS now),
                      ("merged_sources", .jArr []),
                      ("total_faces_added", .jN 0)]]))) := by
  have hTex : personExists st g P = true := by
    unfold personExists
    rw [hP]
    rfl
  obtain ⟨xs0, hxs0, hgetD⟩ : ∃ xs0 : List JVal,
      (((get_user_metadata st g P).lookup "merge_history" = none ∧ xs0 = [])
        ∨ (get_user_metadata st g P).lookup "merge_history" = some (.jArr xs0))
      ∧ ((get_user_metadata st g P).lookup "merge_history").getD (.jArr [])
          = .jArr xs0 := by
    rcases hmh with hnone | ⟨ys, hys⟩
    · exact ⟨[], Or.inl ⟨hnone, rfl⟩, by rw [hnone]; rfl⟩
    · exact ⟨ys, Or.inr hys, by rw [hys]; rfl⟩
  unfold merge_users
  simp only [hTex, if_true, List.foldl_cons, List.foldl_nil]
  rw [mergeOneSource_self_eq g P st ⟨P, [], 0, [], true⟩ ppd hP]
  dsimp only
  simp only [Bool.not_true, Bool.false_eq_true, if_false]
  rw [hgetD]
  dsimp only
  refine ⟨rfl, rfl, rfl, rfl, rfl, ?_, ?_⟩
  · rw [getPerson_save, hP]
    rfl
  · refine ⟨xs0, hxs0, ?_⟩
    rw [get_user_metadata_save]
    dsimp only
    simp only [Nat.cast_zero, List.map_nil]
    by_cases hk : hasKey (setKey (setKey (get_user_metadata st g P)
        "merge_history" (.jArr (xs0 ++
          [.jObj [("merged_at", .jS now),
                  ("merged_sources", .jArr []),
                  ("total_faces_added", .jN 0)]])))
        "last_updated" (.jS now)) "is_temp_user"
    · simp only [hk, if_true]
      rw [lookup_setKey_ne _ _ _ _ (by decide)]
      exact lookup_setKey_self _ _ _
    · simp only [hk, Bool.false_eq_true, if_false]
      rw [lookup_setKey_ne _ _ _ _ (by decide), lookup_setKey_ne _ _ _ _ (by decide)]
      exact lookup_setKey_self _ _ _

/-- Witness for C2 (amended): a concrete self-merge run. -/
theorem c2_self_merge_witness :
    (merge_users ⟨[("g", [("P2", ⟨["x.jpg"], .absent⟩)])]⟩ "g" ["P2"] "P2" "t").success = true
    ∧ ((merge_users ⟨[("g", [("P2", ⟨["x.jpg"], .absent⟩)])]⟩ "g" ["P2"] "P2" "t").info.map
        (·.total_faces_moved) = some 0)
    ∧ ((getPerson (merge_users ⟨[("g", [("P2", ⟨["x.jpg"], .absent⟩)])]⟩
        "g" ["P2"] "P2" "t").store "g" "P2").map (·.images) = some ["x.jpg"]) := by
  have h := c2_self_merge ⟨[("g", [("P2", ⟨["x.jpg"], .absent⟩)])]⟩ "g" "P2" "t"
    ⟨["x.jpg"], .absent⟩ rfl (Or.inl rfl)
  exact ⟨h.1, h.2.2.1, h.2.2.2.2.2.1⟩

/-! ## The target's `is_temp_user` across a merge (claim C6) -/

theorem mergeOneSource_target_existed (g T src : String) (st : Store) (info : MergedInfo) :
    (mergeOneSource g T st info src).2.target_existed = info.target_existed := by
  unfold mergeOneSource
  cases h : getPerson st g src with
  | none => rfl
  | some spd =>
    dsimp only
    split
    · rfl
    · rfl

theorem mergeFold_target_existed (g T : String) (sources : List String) :
    ∀ st info, ((sources.foldl (fun acc src => mergeOneSource g T acc.1 acc.2 src)
        (st, info)).2).target_existed = info.target_existed := by
  induction sources with
  | nil => intro st info; rfl
  | cons src rest ih =>
    intro st info
    rw [List.foldl_cons]
    have h := ih (mergeOneSource g T st info src).1 (mergeOneSource g T st info src).2
    rw [h, mergeOneSource_target_existed]

/-- C6 counterexample: target `T` exists with `is_temp_user = true`; a
merge of source `S` into `T` completes successfully and moves `S`'s
sample, yet `T`'s stored `is_temp_user` is still `true` afterwards —
being the target of a merge does not make a Temporary person Permanent. -/
theorem c6_counterexample :
    (merge_users ⟨[("g", [("T", ⟨[], .stored [("is_temp_user", .jB true)]⟩),
        ("S", ⟨["a.jpg"], .absent⟩)])]⟩ "g" ["S"] "T" "now").success = true
    ∧ ((merge_users ⟨[("g", [("T", ⟨[], .stored [("is_temp_user", .jB true)]⟩),
        ("S", ⟨["a.jpg"], .absent⟩)])]⟩ "g" ["S"] "T" "now").info.map
        (·.total_faces_moved) = some 1)
    ∧ ((get_user_metadata (merge_users
        ⟨[("g", [("T", ⟨[], .stored [("is_temp_user", .jB true)]⟩),
          ("S", ⟨["a.jpg"], .absent⟩)])]⟩ "g" ["S"] "T" "now").store "g" "T").lookup
        "is_temp_user" = some (.jB true)) :=
  ⟨rfl, rfl, rfl⟩

/-- C6 amended: `merge_users` never changes an existing target's
`is_temp_user` flag (a Temporary target stays Temporary); only a target
that did not previously exist is initialized as Permanent
(`is_temp_user = false`) by the metadata write that completes the merge,
which happens after the samples are moved. -/
theorem c6_merge_target_flag (st : Store) (g T now : String) (sources : List String) :
    (∀ tpd td b, getPerson st g T = some tpd → tpd.meta = .stored td →
        td.lookup "is_temp_user" = some (.jB b) →
        (td.lookup "merge_history" = none
          ∨ ∃ ys, td.lookup "merge_history" = some (.jArr ys)) →
        (get_user_metadata (merge_users st g sources T now).store g T).lookup "is_temp_user"
          = some (.jB b))
    ∧ (getPerson st g T = none →
        (get_user_metadata (merge_users st g sources T now).store g T).lookup "is_temp_user"
          = some (.jB false)) := by
  constructor
  · intro tpd td b hT hmeta hflag hmh
    have hTex : personExists st g T = true := by
      unfold personExists
      rw [hT]
      rfl
    obtain ⟨imgs, hgf⟩ := mergeFold_target_meta g T sources st ⟨T, [], 0, [], true⟩ tpd hT
    have htd : get_user_metadata ((sources.foldl
        (fun acc src => mergeOneSource g T acc.1 acc.2 src)
        (st, ⟨T, [], 0, [], true⟩)).1) g T = td := by
      unfold get_user_metadata
      rw [hgf]
      show (match tpd.meta with | MetaFile.stored d => d | _ => ([] : Doc)) = td
      rw [hmeta]
    have hte := mergeFold_target_existed g T sources st ⟨T, [], 0, [], true⟩
    obtain ⟨xs0, hgetD⟩ : ∃ xs0 : List JVal,
        (td.lookup "merge_history").getD (.jArr []) = .jArr xs0 := by
      rcases hmh with hnone | ⟨ys, hys⟩
      · exact ⟨[], by rw [hnone]; rfl⟩
      · exact ⟨ys, by rw [hys]; rfl⟩
    unfold merge_users
    simp only [hTex, if_true]
    rw [htd, hte]
    simp only [Bool.not_true, Bool.false_eq_true, if_false]
    rw [hgetD]
    dsimp only
    rw [get_user_metadata_save]
    dsimp only
    have hl1 : (setKey (setKey td "merge_history" (.jArr (xs0 ++
        [.jObj [("merged_at", .jS now),
                ("merged_sources", .jArr ((sources.foldl
                  (fun acc src => mergeOneSource g T acc.1 acc.2 src)
                  (st, ⟨T, [], 0, [], true⟩)).2.merged_sources.map fun si => .jS si.person_id)),
                ("total_faces_added", .jN ((sources.foldl
                  (fun acc src => mergeOneSource g T acc.1 acc.2 src)
                  (st, ⟨T, [], 0, [], true⟩)).2.total_faces_moved : Rat))]])))
        "last_updated" (.jS now)).lookup "is_temp_user" = some (.jB b) := by
      rw [lookup_setKey_ne _ _ _ _ (by decide), lookup_setKey_ne _ _ _ _ (by decide)]
      exact hflag
    have hk : hasKey (setKey (setKey td "merge_history" (.jArr (xs0 ++
        [.jObj [("merged_at", .jS now),
                ("merged_sources", .jArr ((sources.foldl
                  (fun acc src => mergeOneSource g T acc.1 acc.2 src)
                  (st, ⟨T, [], 0, [], true⟩)).2.merged_sources.map fun si => .jS si.person_id)),
                ("total_faces_added", .jN ((sources.foldl
                  (fun acc src => mergeOneSource g T acc.1 acc.2 src)
                  (st, ⟨T, [], 0, [], true⟩)).2.total_faces_moved : Rat))]])))
        "last_updated" (.jS now)) "is_temp_user" = true := by
      unfold hasKey
      rw [hl1]
      rfl
    simp only [hk, if_true]
    exact hl1
  · intro hT
    have hTex : personExists st g T = false := by
      unfold personExists
      rw [hT]
      rfl
    have hcr : getPerson (create_person_directory st g T) g T = some ⟨[], .absent⟩ := by
      rw [getPerson_create_self, hT]
      rfl
    obtain ⟨imgs, hgf⟩ := mergeFold_target_meta g T sources
      (create_person_directory st g T) ⟨T, [], 0, [], false⟩ ⟨[], .absent⟩ hcr
    have htd : get_user_metadata ((sources.foldl
        (fun acc src => mergeOneSource g T acc.1 acc.2 src)
        (create_person_directory st g T, ⟨T, [], 0, [], false⟩)).1) g T = [] := by
      unfold get_user_metadata
      rw [hgf]
    have hte := mergeFold_target_existed g T sources
      (create_person_directory st g T) ⟨T, [], 0, [], false⟩
    unfold merge_users
    simp only [hTex, Bool.false_eq_true, if_false]
    rw [htd, hte]
    simp only [Bool.not_false, if_true]
    rw [show ((setKey (setKey (setKey (setKey ([] : Doc)
        "created_at" (.jS now)) "person_id" (.jS T)) "is_temp_user" (.jB false))
        "created_from_merge" (.jB true)).lookup "merge_history").getD (.jArr [])
        = .jArr [] from rfl]
    dsimp only
    rw [get_user_metadata_save]
    rfl

/-- Witness for C6 (amended): an existing temporary target keeps its flag;
a fresh target is initialized permanent. -/
theorem c6_merge_target_flag_witness :
    ((get_user_metadata (merge_users ⟨[("g", [("T2", ⟨[], .stored [("is_temp_user", .jB true)]⟩),
        ("S2", ⟨[], .absent⟩)])]⟩ "g" ["S2"] "T2" "t").store "g" "T2").lookup "is_temp_user"
      = some (.jB true))
    ∧ ((get_user_metadata (merge_users ⟨[("g", [("S3", ⟨[], .absent⟩)])]⟩
        "g" ["S3"] "T3" "t").store "g" "T3").lookup "is_temp_user" = some (.jB false)) := by
  refine ⟨?_, ?_⟩
  · exact (c6_merge_target_flag ⟨[("g", [("T2", ⟨[], .stored [("is_temp_user", .jB true)]⟩),
      ("S2", ⟨[], .absent⟩)])]⟩ "g" "T2" "t" ["S2"]).1
      ⟨[], .stored [("is_temp_user", .jB true)]⟩ [("is_temp_user", .jB true)] true
      rfl rfl rfl (Or.inl rfl)
  · exact (c6_merge_target_flag ⟨[("g", [("S3", ⟨[], .absent⟩)])]⟩ "g" "T3" "t" ["S3"]).2 rfl

end Rekindle
